import Mathlib

/-!
# ArbEngine-Pro: verification of the spec against the source

Shallow embedding of the parts of the repository that the claims concern:

* `crates/core/src/arbitrage.rs` — `ArbitrageDetector` (price cache,
  opportunity detection, stale-price eviction);
* `crates/core/src/types.rs` — `DexType`, `TokenPair`, `PriceData`,
  `ArbitrageOpportunity`, `ArbitrageConfig`;
* `crates/core/src/risk/circuit_breaker.rs` — `CircuitBreaker`;
* `crates/core/src/risk/volatility.rs` — `VolatilityTracker`;
* `crates/bot/src/execution.rs` — `submit_with_retry` and
  `extract_instructions_from_tx`.

Conventions of the embedding:

* `rust_decimal::Decimal` is embedded as `ℚ`.  `Decimal` is an exact
  scaled-decimal type (96-bit mantissa); its arithmetic is exact except for
  rounding at the 28th significant digit on division, which is below every
  quantity the claims compare.  All comparisons in the source are exact
  `Decimal` comparisons, which `ℚ` captures.
* `chrono` timestamps are embedded as `ℤ` (whole seconds); `Instant` as `ℕ`.
* `HashMap`s that the claims inspect are embedded as association lists; the
  source only reads them through `get` / `retain` / `insert`, which the list
  operations mirror.
* Fields of `ArbitrageOpportunity` produced nondeterministically
  (`id: Uuid::new_v4()`, `detected_at: Utc::now()`) are omitted from the
  embedded structure: no claim mentions them.
-/

namespace ArbEngine

/-- Mirrors `DexType` from `crates/core/src/types.rs` (six supported venues). -/
inductive DexType where
  | Raydium
  | Orca
  | Jupiter
  | Lifinity
  | Meteora
  | Phoenix
deriving DecidableEq, Repr

/-- Mirrors `DexType::fee_percentage` from `crates/core/src/types.rs`:
`Decimal::new(m, s)` denotes `m / 10^s`. -/
def DexType.feePercentage : DexType → ℚ
  | .Raydium => 25 / 10000
  | .Orca => 30 / 10000
  | .Jupiter => 0 / 10000
  | .Lifinity => 10 / 10000
  | .Meteora => 10 / 10000
  | .Phoenix => 5 / 10000

/-- Mirrors `DexType::all` from `crates/core/src/types.rs`. -/
def DexType.all : List DexType :=
  [.Raydium, .Orca, .Jupiter, .Lifinity, .Meteora, .Phoenix]

/-- Mirrors `TokenPair` from `crates/core/src/types.rs`. -/
structure TokenPair where
  base : String
  quote : String
deriving DecidableEq, Repr

/-- Mirrors `PriceData` from `crates/core/src/types.rs`.  `timestamp` is the
`chrono::DateTime<Utc>` in whole seconds. -/
structure PriceData where
  dex : DexType
  pair : TokenPair
  bid : ℚ
  ask : ℚ
  midPrice : ℚ
  volume24h : Option ℚ := none
  liquidity : Option ℚ := none
  timestamp : ℤ
deriving DecidableEq, Repr

/-- Mirrors `ArbitrageConfig` from `crates/core/src/types.rs` (the detector reads only
`min_profit_threshold`). -/
structure ArbitrageConfig where
  minProfitThreshold : ℚ
  maxPositionSize : ℚ
  slippageTolerance : ℚ
  solanaTxFee : ℚ
deriving DecidableEq, Repr

/-- Mirrors `ArbitrageConfig::default` from `crates/core/src/types.rs`. -/
def ArbitrageConfig.default : ArbitrageConfig where
  minProfitThreshold := 50 / 10000
  maxPositionSize := 1000
  slippageTolerance := 100 / 10000
  solanaTxFee := 5 / 1000000

/-- Mirrors `ArbitrageOpportunity` from `crates/core/src/types.rs`, without the
nondeterministic `id` / `detected_at` fields (no claim mentions them). -/
structure ArbitrageOpportunity where
  pair : TokenPair
  buyDex : DexType
  sellDex : DexType
  buyPrice : ℚ
  sellPrice : ℚ
  grossProfitPct : ℚ
  netProfitPct : ℚ
  estimatedProfitUsd : Option ℚ := none
  recommendedSize : Option ℚ := none
  expiredAt : Option ℤ := none
deriving DecidableEq, Repr

/-- The detector's price cache `HashMap<(TokenPair, DexType), PriceData>`,
embedded as an association list (first hit wins on lookup). -/
abbrev PriceCache := List ((TokenPair × DexType) × PriceData)

/-- Mirrors `HashMap::get` on the price cache. -/
def PriceCache.get (c : PriceCache) (pair : TokenPair) (dex : DexType) :
    Option PriceData :=
  (List.find? (fun e => e.1 = (pair, dex)) c).map (·.2)

/-- Mirrors `ArbitrageDetector::check_opportunity` from
`crates/core/src/arbitrage.rs` lines 74–113: buy at `buy_from.ask`, sell at
`sell_to.bid`; `None` when either price is zero; otherwise emit exactly when
the net profit percentage strictly exceeds the configured threshold. -/
def checkOpportunity (config : ArbitrageConfig) (buyFrom sellTo : PriceData) :
    Option ArbitrageOpportunity :=
  let buyPrice := buyFrom.ask
  let sellPrice := sellTo.bid
  if buyPrice = 0 ∨ sellPrice = 0 then
    none
  else
    let grossProfitPct := ((sellPrice - buyPrice) / buyPrice) * 100
    let buyFee := buyFrom.dex.feePercentage
    let sellFee := sellTo.dex.feePercentage
    let totalFeePct := buyFee + sellFee
    let netProfitPct := grossProfitPct - totalFeePct
    if netProfitPct > config.minProfitThreshold then
      some
        { pair := buyFrom.pair
          buyDex := buyFrom.dex
          sellDex := sellTo.dex
          buyPrice := buyPrice
          sellPrice := sellPrice
          grossProfitPct := grossProfitPct
          netProfitPct := netProfitPct }
    else
      none

/-- Inner `for j in (i+1)..` loop of `ArbitrageDetector::find_opportunities`:
for a fixed `price_a`, try both directions against each later price. -/
def pairLoop (config : ArbitrageConfig) (a : PriceData) :
    List PriceData → List ArbitrageOpportunity
  | [] => []
  | b :: rest =>
      (checkOpportunity config a b).toList ++
        (checkOpportunity config b a).toList ++ pairLoop config a rest

/-- Outer `for i` loop of `ArbitrageDetector::find_opportunities`. -/
def comparePrices (config : ArbitrageConfig) :
    List PriceData → List ArbitrageOpportunity
  | [] => []
  | a :: rest => pairLoop config a rest ++ comparePrices config rest

/-- Mirrors `ArbitrageDetector::find_opportunities` from
`crates/core/src/arbitrage.rs` lines 41–71: gather the cached quotes of the
hard-coded venue list `[Raydium, Orca, Jupiter]`, compare every pair in both
directions, and sort by net profit descending. -/
def findOpportunities (config : ArbitrageConfig) (cache : PriceCache)
    (pair : TokenPair) : List ArbitrageOpportunity :=
  let prices :=
    ([DexType.Raydium, DexType.Orca, DexType.Jupiter]).filterMap
      (fun dex => cache.get pair dex)
  (comparePrices config prices).mergeSort
    (fun a b => b.netProfitPct ≤ a.netProfitPct)

/-- Mirrors `ArbitrageDetector::clear_stale_prices` from
`crates/core/src/arbitrage.rs` lines 141–147: retain the quotes with
`(now - price.timestamp).num_seconds() < max_age_seconds`. -/
def clearStalePrices (now : ℤ) (maxAgeSeconds : ℤ) (cache : PriceCache) :
    PriceCache :=
  cache.filter (fun e => now - e.2.timestamp < maxAgeSeconds)

/-! ### Concrete fixtures used by witnesses and counterexamples -/

/-- The `"SOL"/"USDC"` pair used throughout the repository's tests. -/
def solUsdc : TokenPair := ⟨"SOL", "USDC"⟩

/-- A Raydium quote: bid 99.9, ask 100. -/
def raydiumQuote : PriceData :=
  { dex := .Raydium, pair := solUsdc, bid := 999 / 10, ask := 100
    midPrice := 1999 / 20, timestamp := 0 }

/-- An Orca quote: bid 101.5, ask 101.6. -/
def orcaQuote : PriceData :=
  { dex := .Orca, pair := solUsdc, bid := 203 / 2, ask := 508 / 5
    midPrice := 2031 / 20, timestamp := 0 }

/-- A quote whose ask price is zero. -/
def zeroAskQuote : PriceData :=
  { dex := .Raydium, pair := solUsdc, bid := 1, ask := 0
    midPrice := 1 / 2, timestamp := 0 }

/-- A Lifinity quote: bid 99.9, ask 100. -/
def lifinityQuote : PriceData :=
  { dex := .Lifinity, pair := solUsdc, bid := 999 / 10, ask := 100
    midPrice := 1999 / 20, timestamp := 0 }

/-- A Phoenix quote: bid 150, ask 151, crossing far above `lifinityQuote`'s
ask. -/
def phoenixQuote : PriceData :=
  { dex := .Phoenix, pair := solUsdc, bid := 150, ask := 151
    midPrice := 301 / 2, timestamp := 0 }

/-- A cache holding only Lifinity and Phoenix quotes for `"SOL"/"USDC"`. -/
def lifinityPhoenixCache : PriceCache :=
  [((solUsdc, .Lifinity), lifinityQuote), ((solUsdc, .Phoenix), phoenixQuote)]

/-- A quote timestamped 10 (in the future relative to `now = 5`). -/
def futureQuote : PriceData :=
  { dex := .Raydium, pair := solUsdc, bid := 1, ask := 1
    midPrice := 1, timestamp := 10 }

/-- A cache holding only `futureQuote`. -/
def futureCache : PriceCache := [((solUsdc, .Raydium), futureQuote)]

/-! ### Circuit breaker (`crates/core/src/risk/circuit_breaker.rs`)

The source guards its fields with `tokio::sync::RwLock`, but every claim is
about sequential call sequences, so the embedding is a pure state machine.
`Instant` is embedded as `ℕ` (a monotone clock); `elapsed()` at time `now`
is `now - lastFailure`. -/

/-- Mirrors `CircuitState` from `crates/core/src/risk/circuit_breaker.rs`. -/
inductive CircuitState where
  | Closed
  | HalfOpen
  | Open
deriving DecidableEq, Repr

/-- Mirrors `CircuitBreaker` from `crates/core/src/risk/circuit_breaker.rs`:
configuration plus mutable state. -/
structure CircuitBreaker where
  state : CircuitState
  failureThreshold : ℕ
  successThreshold : ℕ
  timeout : ℕ
  consecutiveFailures : ℕ
  consecutiveSuccesses : ℕ
  lastFailureTime : Option ℕ
deriving DecidableEq, Repr

/-- Mirrors `CircuitBreaker::new`. -/
def CircuitBreaker.new (failureThreshold successThreshold timeoutSecs : ℕ) :
    CircuitBreaker where
  state := .Closed
  failureThreshold := failureThreshold
  successThreshold := successThreshold
  timeout := timeoutSecs
  consecutiveFailures := 0
  consecutiveSuccesses := 0
  lastFailureTime := none

/-- Mirrors `CircuitBreaker::record_success`: increment the success counter, zero the
failure counter, and close the circuit from HalfOpen once enough successes
accumulated. -/
def CircuitBreaker.recordSuccess (cb : CircuitBreaker) : CircuitBreaker :=
  let successes := cb.consecutiveSuccesses + 1
  let cb' := { cb with consecutiveSuccesses := successes
                       consecutiveFailures := 0 }
  if cb'.successThreshold ≤ successes ∧ cb'.state = .HalfOpen then
    { cb' with state := .Closed }
  else
    cb'

/-- Mirrors `CircuitBreaker::record_failure` at clock time `now`: increment the
failure counter, zero the success counter, stamp the failure time, and open
the circuit when the threshold is reached. -/
def CircuitBreaker.recordFailure (cb : CircuitBreaker) (now : ℕ) :
    CircuitBreaker :=
  let failures := cb.consecutiveFailures + 1
  let cb' := { cb with consecutiveFailures := failures
                       consecutiveSuccesses := 0
                       lastFailureTime := some now }
  if cb'.failureThreshold ≤ failures then
    { cb' with state := .Open }
  else
    cb'

/-- Mirrors `CircuitBreaker::can_execute` at clock time `now`: returns the decision
and the (possibly updated) breaker, since the Open-to-HalfOpen transition
mutates the state. -/
def CircuitBreaker.canExecute (cb : CircuitBreaker) (now : ℕ) :
    Bool × CircuitBreaker :=
  match cb.state with
  | .Closed => (true, cb)
  | .Open =>
      match cb.lastFailureTime with
      | some lastFailure =>
          if cb.timeout ≤ now - lastFailure then
            (true, { cb with state := .HalfOpen })
          else
            (false, cb)
      | none => (false, cb)
  | .HalfOpen => (true, cb)

/-- One recorded outcome fed to the breaker (C9 quantifies over sequences of
`record_success` / `record_failure` calls). -/
inductive BreakerOp where
  | success
  | failure (now : ℕ)
deriving DecidableEq, Repr

/-- Apply one recorded outcome. -/
def CircuitBreaker.applyOp (cb : CircuitBreaker) : BreakerOp → CircuitBreaker
  | .success => cb.recordSuccess
  | .failure now => cb.recordFailure now

/-- Apply a sequence of recorded outcomes, oldest first. -/
def CircuitBreaker.applyOps (cb : CircuitBreaker) (ops : List BreakerOp) :
    CircuitBreaker :=
  ops.foldl CircuitBreaker.applyOp cb

/-- Apply a sequence of `record_failure` calls at the given clock times. -/
def CircuitBreaker.applyFailures (cb : CircuitBreaker) (ts : List ℕ) :
    CircuitBreaker :=
  ts.foldl CircuitBreaker.recordFailure cb

/-! ### Volatility tracker (`crates/core/src/risk/volatility.rs`)

The square root on lines 46–48 of the source is computed by converting the
`Decimal` to `f64`, applying `f64::sqrt`, and converting back with
`Decimal::try_from(..).unwrap_or(ZERO)`; that floating-point round-trip is
outside the embedding, so it enters the model as an opaque-to-the-theorems
parameter `sqrtApprox : ℚ → ℚ` (`to_f64` on a `Decimal` never returns
`None`, so the `if let Some` around the store always takes the `Some`
branch). -/

/-- Lookup in a `HashMap<String, Decimal>` embedded as an association list
(first hit wins; insertion conses a fresh binding). -/
def lookupQ (m : List (String × ℚ)) (k : String) : Option ℚ :=
  (m.find? (fun e => e.1 = k)).map (·.2)

/-- Insert (replace) in a `HashMap<String, Decimal>` embedded as an
association list. -/
def insertQ (m : List (String × ℚ)) (k : String) (v : ℚ) :
    List (String × ℚ) :=
  (k, v) :: m.filter (fun e => e.1 ≠ k)

/-- Mirrors `VolatilityTracker` from `crates/core/src/risk/volatility.rs`. -/
structure VolatilityTracker where
  volatilities : List (String × ℚ)
  lastPrices : List (String × ℚ)
  decay : ℚ

/-- Mirrors `VolatilityTracker::new`: decay factor `λ = 2 / (N + 1)`. -/
def VolatilityTracker.new (windowSize : ℕ) : VolatilityTracker where
  volatilities := []
  lastPrices := []
  decay := 2 / ((windowSize : ℚ) + 1)

/-- Mirrors `VolatilityTracker::update_price`.  When a previous price exists, compute
the return `r = (price − last)/last`, update the EWMA variance
`λ·r² + (1−λ)·v²` (with `v` the previously stored volatility, read back and
squared by the source), store `sqrtApprox` of it, and in every case record
the new last price. -/
def VolatilityTracker.updatePrice (sqrtApprox : ℚ → ℚ)
    (t : VolatilityTracker) (pair : String) (price : ℚ) : VolatilityTracker :=
  let t' :=
    match lookupQ t.lastPrices pair with
    | some lastPrice =>
        let ret := (price - lastPrice) / lastPrice
        let retSq := ret * ret
        let currentVolSq :=
          ((lookupQ t.volatilities pair).map (fun v => v * v)).getD 0
        let newVolSq := t.decay * retSq + (1 - t.decay) * currentVolSq
        { t with volatilities :=
            insertQ t.volatilities pair (sqrtApprox newVolSq) }
    | none => t
  { t' with lastPrices := insertQ t'.lastPrices pair price }

/-- Mirrors `VolatilityTracker::get_volatility`. -/
def VolatilityTracker.getVolatility (t : VolatilityTracker) (pair : String) :
    Option ℚ :=
  lookupQ t.volatilities pair

/-- The consequence of claim C8's exact square-root reading at the concrete
input: window `N = 3` (so `λ = 1/2`), prices `1` then `2` (so `r = 1` and the
claimed variance is `λ·1 + (1−λ)·0 = 1/2`).  If the stored volatility were
exactly `√(1/2)`, some rational `v` with `v·v = 1/2` would be stored,
whatever rational-valued square-root routine the implementation uses. -/
def volatilityExactSqrtAtOneHalf : Prop :=
  ∃ sqrtApprox : ℚ → ℚ, ∃ v : ℚ,
    (((VolatilityTracker.new 3).updatePrice sqrtApprox "SOL" 1).updatePrice
        sqrtApprox "SOL" 2).getVolatility "SOL" = some v
    ∧ v * v = 1 / 2

/-! ### Submission retry (`crates/bot/src/execution.rs` lines 336–364)

`Executor::submit_with_retry` loops `for attempt in 0..max_retries`, calling
`submit_swap_transaction` each time.  The environment (network, RPC) decides
each attempt's outcome, modelled as `f : ℕ → Except String String` giving
attempt `i`'s result.  The model returns the final result, the list of
back-off delays slept (in ms, in order), and the number of attempts made. -/

/-- The retry loop with `remaining = max_retries - attempt` iterations left:
on success return at once; on failure sleep `500 · 2^attempt` ms, remember
the error, and continue; when attempts are exhausted surface the last error
(`anyhow!("All retry attempts exhausted")` when no attempt ever ran). -/
def submitRetryAux (f : ℕ → Except String String) :
    (attempt : ℕ) → (lastError : Option String) → (remaining : ℕ) →
    Except String String × List ℕ × ℕ
  | _, lastError, 0 =>
      (match lastError with
        | some e => .error e
        | none => .error "All retry attempts exhausted", [], 0)
  | attempt, _, remaining + 1 =>
      match f attempt with
      | .ok sig => (.ok sig, [], 1)
      | .error e =>
          let rest := submitRetryAux f (attempt + 1) (some e) remaining
          (rest.1, 500 * 2 ^ attempt :: rest.2.1, rest.2.2 + 1)

/-- Mirrors `Executor::submit_with_retry`. -/
def submitWithRetry (maxRetries : ℕ) (f : ℕ → Except String String) :
    Except String String × List ℕ × ℕ :=
  submitRetryAux f 0 none maxRetries

/-- Attempt outcomes for the C7 witness: attempt 0 fails, attempt 1
succeeds. -/
def retryOutcomesEx : ℕ → Except String String :=
  fun n => if n = 0 then .error "blockhash expired" else .ok "sig"

/-! ### Transaction decompilation (`crates/bot/src/execution.rs` 526–719)

`Executor::extract_instructions_from_tx` decodes a base64/bincode
`VersionedTransaction` and rebuilds `Instruction`s from compiled index form.
The embedding starts at the already-deserialized message (base64 / bincode
are dependency code whose failures are separate `Err`s upstream of the
claims).  Pubkeys are embedded as `ℕ`.  Rust slice indexing `full_keys[idx]`
panics on an out-of-range index instead of returning a decode error; the
embedding makes that abort explicit as the `panicIndexOutOfBounds` outcome,
distinguished from returned `anyhow!` errors by
`DecompileError.isReturnedError`. -/

/-- A Solana public key, embedded as `ℕ`. -/
abbrev Pubkey := ℕ

/-- Mirrors `MessageHeader` (u8 counts). -/
structure MessageHeader where
  numRequiredSignatures : ℕ
  numReadonlySignedAccounts : ℕ
  numReadonlyUnsignedAccounts : ℕ
deriving DecidableEq, Repr

/-- A compiled instruction: indices into the message's account-key list. -/
structure CompiledInstruction where
  programIdIndex : ℕ
  accounts : List ℕ
  data : List ℕ
deriving DecidableEq, Repr

/-- Mirrors `MessageAddressTableLookup`: a lookup-table address plus the writable
and readonly index lists into that table. -/
structure MessageAddressTableLookup where
  accountKey : Pubkey
  writableIndexes : List ℕ
  readonlyIndexes : List ℕ
deriving DecidableEq, Repr

/-- Mirrors `AddressLookupTableAccount`: a table key and its addresses. -/
structure AddressLookupTableAccount where
  key : Pubkey
  addresses : List Pubkey
deriving DecidableEq, Repr

/-- A `v0::Message`. -/
structure V0Message where
  header : MessageHeader
  accountKeys : List Pubkey
  instructions : List CompiledInstruction
  addressTableLookups : List MessageAddressTableLookup
deriving DecidableEq, Repr

/-- A legacy `Message`. -/
structure LegacyMessage where
  header : MessageHeader
  accountKeys : List Pubkey
  instructions : List CompiledInstruction
deriving DecidableEq, Repr

/-- Mirrors `VersionedMessage`. -/
inductive VersionedMessage where
  | legacy (msg : LegacyMessage)
  | v0 (msg : V0Message)
deriving DecidableEq, Repr

/-- The compiled instructions of either message kind. -/
def VersionedMessage.instructions : VersionedMessage → List CompiledInstruction
  | .legacy m => m.instructions
  | .v0 m => m.instructions

/-- Mirrors `solana_sdk::instruction::AccountMeta`. -/
structure AccountMeta where
  pubkey : Pubkey
  isSigner : Bool
  isWritable : Bool
deriving DecidableEq, Repr

/-- Mirrors `solana_sdk::instruction::Instruction` (resolved form). -/
structure Instruction where
  programId : Pubkey
  accounts : List AccountMeta
  data : List ℕ
deriving DecidableEq, Repr

/-- How decompilation aborts.  The first three are errors the source returns
with `anyhow!`; `panicIndexOutOfBounds` models the Rust panic raised by
slice indexing (`full_keys[idx]`, `account_keys[idx]`) on an out-of-range
index — the function never returns it as an `Err`. -/
inductive DecompileError where
  | noAltManager
  | missingTable (key : Pubkey)
  | lookupIndexOutOfBounds (idx : ℕ) (table : Pubkey)
  | panicIndexOutOfBounds (idx : ℕ)
deriving DecidableEq, Repr

/-- Whether the abort is a returned (`anyhow!`) decode error, as opposed to
a panic that unwinds without producing a `Result::Err`. -/
def DecompileError.isReturnedError : DecompileError → Bool
  | .panicIndexOutOfBounds _ => false
  | _ => true

/-- The `for &idx in &lookup.writable_indexes { if idx < len {push} else
{return Err} }` loops (lines 632–656): resolve each index in the table or
abort with the descriptive out-of-bounds error. -/
def resolveIndexes (table : AddressLookupTableAccount) :
    List ℕ → Except DecompileError (List Pubkey)
  | [] => .ok []
  | idx :: rest =>
      if h : idx < table.addresses.length then
        match resolveIndexes table rest with
        | .ok tail => .ok (table.addresses.get ⟨idx, h⟩ :: tail)
        | .error e => .error e
      else
        .error (.lookupIndexOutOfBounds idx table.key)

/-- The `for lookup in &msg.address_table_lookups` loop (lines 624–657):
find each lookup's table in the fetched response (`Err` if missing), resolve
its writable then readonly indexes, and concatenate across lookups in
order. -/
def resolveLookups (tables : List AddressLookupTableAccount) :
    List MessageAddressTableLookup →
    Except DecompileError (List Pubkey × List Pubkey)
  | [] => .ok ([], [])
  | lookup :: rest =>
      match tables.find? (fun t => t.key = lookup.accountKey) with
      | none => .error (.missingTable lookup.accountKey)
      | some table =>
          match resolveIndexes table lookup.writableIndexes with
          | .error e => .error e
          | .ok ws =>
              match resolveIndexes table lookup.readonlyIndexes with
              | .error e => .error e
              | .ok rs =>
                  match resolveLookups tables rest with
                  | .error e => .error e
                  | .ok (wRest, rRest) => .ok (ws ++ wRest, rs ++ rRest)

/-- Rust slice indexing `keys[idx]`: the value when in range, a panic
otherwise. -/
def keyAt (keys : List Pubkey) (idx : ℕ) : Except DecompileError Pubkey :=
  if h : idx < keys.length then
    .ok (keys.get ⟨idx, h⟩)
  else
    .error (.panicIndexOutOfBounds idx)

/-- Account-meta classification in the V0 with-lookups branch (lines
680–697): `is_signer = idx < sig`; static indices use the header formulas,
dynamic indices are writable iff within the loaded-writable span.  The `u8`
subtractions are embedded as `ℕ` subtraction (coinciding with the source for
valid headers, where the readonly counts do not exceed their totals). -/
def v0AccountMeta (header : MessageHeader) (staticLen writableLen : ℕ)
    (fullKeys : List Pubkey) (idx : ℕ) : Except DecompileError AccountMeta :=
  if h : idx < fullKeys.length then
    let isSigner : Bool := decide (idx < header.numRequiredSignatures)
    let isWritable : Bool :=
      if idx < staticLen then
        if isSigner then
          decide (idx < header.numRequiredSignatures
            - header.numReadonlySignedAccounts)
        else
          decide (idx < staticLen - header.numReadonlyUnsignedAccounts)
      else
        decide (idx < staticLen + writableLen)
    .ok ⟨fullKeys.get ⟨idx, h⟩, isSigner, isWritable⟩
  else
    .error (.panicIndexOutOfBounds idx)

/-- Account-meta classification in the V0 no-lookup branch (lines 579–597):
same header formulas, no dynamic case. -/
def v0AccountMetaNoLookups (header : MessageHeader) (accountKeysLen : ℕ)
    (fullKeys : List Pubkey) (idx : ℕ) : Except DecompileError AccountMeta :=
  if h : idx < fullKeys.length then
    let isSigner : Bool := decide (idx < header.numRequiredSignatures)
    let isWritable : Bool :=
      if isSigner then
        decide (idx < header.numRequiredSignatures
          - header.numReadonlySignedAccounts)
      else
        decide (idx < accountKeysLen - header.numReadonlyUnsignedAccounts)
    .ok ⟨fullKeys.get ⟨idx, h⟩, isSigner, isWritable⟩
  else
    .error (.panicIndexOutOfBounds idx)

/-- Modelled from the spec: the legacy branch (lines 543–559) classifies
accounts through `solana_sdk`'s legacy `Message::is_signer` /
`Message::is_writable`, which are dependency code not under this
repository's source; the spec describes classification by the header counts,
modelled here.  The indexing panic (`msg.account_keys[idx]`) is the
repository's own code. -/
def legacyAccountMeta (header : MessageHeader) (accountKeysLen : ℕ)
    (fullKeys : List Pubkey) (idx : ℕ) : Except DecompileError AccountMeta :=
  if h : idx < fullKeys.length then
    let isSigner : Bool := decide (idx < header.numRequiredSignatures)
    let isWritable : Bool :=
      if isSigner then
        decide (idx < header.numRequiredSignatures
          - header.numReadonlySignedAccounts)
      else
        decide (idx < accountKeysLen - header.numReadonlyUnsignedAccounts)
    .ok ⟨fullKeys.get ⟨idx, h⟩, isSigner, isWritable⟩
  else
    .error (.panicIndexOutOfBounds idx)

/-- Mirrors `iter().map(..).collect()` over fallible element conversion: first
failure aborts the whole map (a Rust panic inside `map` aborts `collect`, so
no partial list is ever produced). -/
def exceptMap (g : α → Except DecompileError β) :
    List α → Except DecompileError (List β)
  | [] => .ok []
  | x :: rest =>
      match g x with
      | .error e => .error e
      | .ok y =>
          match exceptMap g rest with
          | .error e => .error e
          | .ok ys => .ok (y :: ys)

/-- Rebuild one instruction: the program id is read first
(`full_keys[ix.program_id_index]`), then each account meta. -/
def convertInstr (metaAt : ℕ → Except DecompileError AccountMeta)
    (keys : List Pubkey) (ix : CompiledInstruction) :
    Except DecompileError Instruction :=
  match keyAt keys ix.programIdIndex with
  | .error e => .error e
  | .ok programId =>
      match exceptMap metaAt ix.accounts with
      | .error e => .error e
      | .ok accounts => .ok ⟨programId, accounts, ix.data⟩

/-- The V0 no-lookup branch (lines 565–606). -/
def extractV0NoLookups (msg : V0Message) :
    Except DecompileError (List Instruction × List AddressLookupTableAccount) :=
  let fullKeys := msg.accountKeys
  match exceptMap
      (convertInstr
        (v0AccountMetaNoLookups msg.header msg.accountKeys.length fullKeys)
        fullKeys)
      msg.instructions with
  | .error e => .error e
  | .ok instructions => .ok (instructions, [])

/-- The V0 with-lookups branch (lines 607–716): resolve all lookups first,
assemble `full_keys = static ++ loaded_writable ++ loaded_readonly`, then
rebuild every instruction; the fetched tables are returned alongside. -/
def extractV0WithLookups (msg : V0Message)
    (tables : List AddressLookupTableAccount) :
    Except DecompileError (List Instruction × List AddressLookupTableAccount) :=
  match resolveLookups tables msg.addressTableLookups with
  | .error e => .error e
  | .ok (loadedWritable, loadedReadonly) =>
      let fullKeys := msg.accountKeys ++ loadedWritable ++ loadedReadonly
      let staticLen := msg.accountKeys.length
      let writableLen := loadedWritable.length
      match exceptMap
          (convertInstr (v0AccountMeta msg.header staticLen writableLen
            fullKeys) fullKeys)
          msg.instructions with
      | .error e => .error e
      | .ok instructions => .ok (instructions, tables)

/-- The V0 case: no lookups uses the static keys directly; otherwise the
ALT manager must be configured (`altTables = some resp` models the
manager's fetched response). -/
def extractV0 (msg : V0Message)
    (altTables : Option (List AddressLookupTableAccount)) :
    Except DecompileError (List Instruction × List AddressLookupTableAccount) :=
  if msg.addressTableLookups.isEmpty then
    extractV0NoLookups msg
  else
    match altTables with
    | none => .error .noAltManager
    | some tables => extractV0WithLookups msg tables

/-- The legacy case (lines 538–563). -/
def extractLegacy (msg : LegacyMessage) :
    Except DecompileError (List Instruction × List AddressLookupTableAccount) :=
  match exceptMap
      (convertInstr
        (legacyAccountMeta msg.header msg.accountKeys.length msg.accountKeys)
        msg.accountKeys)
      msg.instructions with
  | .error e => .error e
  | .ok instructions => .ok (instructions, [])

/-- Mirrors `Executor::extract_instructions_from_tx`, from the deserialized message
on. -/
def extractInstructionsFromTx (vm : VersionedMessage)
    (altTables : Option (List AddressLookupTableAccount)) :
    Except DecompileError (List Instruction × List AddressLookupTableAccount) :=
  match vm with
  | .legacy m => extractLegacy m
  | .v0 m => extractV0 m altTables

/-- Spec-side description (for the refinement in C3): the table addresses
reachable under a lookup key in the resolver's response. -/
def tableAddresses (tables : List AddressLookupTableAccount) (k : Pubkey) :
    List Pubkey :=
  ((tables.find? (fun t => t.key = k)).map (·.addresses)).getD []

/-- Spec-side description (for the refinement in C3): "all resolved writable
dynamic addresses (in lookup order)". -/
def specDynamicWritable (tables : List AddressLookupTableAccount)
    (lookups : List MessageAddressTableLookup) : List Pubkey :=
  lookups.foldr
    (fun l acc =>
      l.writableIndexes.map
        (fun i => (tableAddresses tables l.accountKey).getD i 0) ++ acc)
    []

/-- Spec-side description (for the refinement in C3): "all resolved readonly
dynamic addresses (in lookup order)". -/
def specDynamicReadonly (tables : List AddressLookupTableAccount)
    (lookups : List MessageAddressTableLookup) : List Pubkey :=
  lookups.foldr
    (fun l acc =>
      l.readonlyIndexes.map
        (fun i => (tableAddresses tables l.accountKey).getD i 0) ++ acc)
    []

/-- Witness/counterexample fixture: header with 1 required signature, 0
readonly-signed, 1 readonly-unsigned. -/
def headerEx : MessageHeader := ⟨1, 0, 1⟩

/-- Fixture lookup table with key 7 and two addresses. -/
def tableEx : AddressLookupTableAccount := ⟨7, [30, 40]⟩

/-- Fixture lookup: table 7, writable index 0, readonly index 1. -/
def lookupEx : MessageAddressTableLookup := ⟨7, [0], [1]⟩

/-- Fixture V0 message: two static keys, one lookup, one instruction
touching every key (indices 0–3 over `[10, 20] ++ [30] ++ [40]`). -/
def msgEx : V0Message :=
  { header := headerEx
    accountKeys := [10, 20]
    instructions := [⟨0, [0, 1, 2, 3], [9]⟩]
    addressTableLookups := [lookupEx] }

/-- Fixture V0 message whose instruction refers to account index 5, past the
4-entry assembled key list: decompilation hits the slice-indexing panic. -/
def msgBadIndex : V0Message :=
  { header := headerEx
    accountKeys := [10, 20]
    instructions := [⟨0, [0, 5], []⟩]
    addressTableLookups := [lookupEx] }

/-- The instructions `msgEx` decompiles to: over
`full_keys = [10, 20] ++ [30] ++ [40]`, index 0 is a writable signer, index
1 a readonly non-signer (`1 ≥ 2 − 1`), index 2 the writable dynamic entry,
index 3 the readonly dynamic entry. -/
def instrsEx : List Instruction :=
  [⟨10, [⟨10, true, true⟩, ⟨20, false, false⟩, ⟨30, false, true⟩,
    ⟨40, false, false⟩], [9]⟩]

/-! ### Claims about the arbitrage detector -/

/-- Claim C1: For every pair of quotes (buy venue A, sell venue B) with nonzero
`ask_A` and `bid_B`, `check_opportunity` emits an A-to-B opportunity iff
gross % = (bid_B − ask_A)/ask_A × 100 minus (fee_A + fee_B) strictly exceeds
the configured minimum profit threshold (exact comparison; equality with the
threshold is excluded), and the emitted opportunity carries exactly those
gross % and net % values. -/
theorem check_opportunity_emits_iff_above_threshold
    (config : ArbitrageConfig) (buyFrom sellTo : PriceData)
    (ha : buyFrom.ask ≠ 0) (hb : sellTo.bid ≠ 0) :
    ((checkOpportunity config buyFrom sellTo).isSome ↔
      ((sellTo.bid - buyFrom.ask) / buyFrom.ask) * 100
          - (buyFrom.dex.feePercentage + sellTo.dex.feePercentage)
        > config.minProfitThreshold)
    ∧ ∀ opp, checkOpportunity config buyFrom sellTo = some opp →
        opp.grossProfitPct = ((sellTo.bid - buyFrom.ask) / buyFrom.ask) * 100
        ∧ opp.netProfitPct = ((sellTo.bid - buyFrom.ask) / buyFrom.ask) * 100
            - (buyFrom.dex.feePercentage + sellTo.dex.feePercentage) := by
  unfold checkOpportunity
  rw [if_neg (by simp [ha, hb])]
  dsimp only
  constructor
  · split_ifs with h
    · simpa using h
    · simpa using h
  · intro opp hopp
    split_ifs at hopp with h
    cases hopp
    exact ⟨rfl, rfl⟩

/-- Witness for C1: at the concrete Raydium/Orca quotes the net profit
exceeds the default threshold, so an opportunity is emitted. -/
theorem check_opportunity_emits_iff_above_threshold_witness :
    (checkOpportunity ArbitrageConfig.default raydiumQuote orcaQuote).isSome :=
  (check_opportunity_emits_iff_above_threshold ArbitrageConfig.default
        raydiumQuote orcaQuote (by norm_num [raydiumQuote])
        (by norm_num [orcaQuote])).1.mpr
    (by norm_num [raydiumQuote, orcaQuote, ArbitrageConfig.default,
      DexType.feePercentage])

/-- Claim C10: When the buy venue's ask price or the sell venue's bid price is
zero, `check_opportunity` returns no opportunity (the zero guard is tested
before the division, so detection never divides by zero). -/
theorem check_opportunity_zero_price_none
    (config : ArbitrageConfig) (buyFrom sellTo : PriceData)
    (h : buyFrom.ask = 0 ∨ sellTo.bid = 0) :
    checkOpportunity config buyFrom sellTo = none := by
  unfold checkOpportunity
  exact if_pos h

/-- Witness for C10: the zero-ask quote yields no opportunity. -/
theorem check_opportunity_zero_price_none_witness :
    checkOpportunity ArbitrageConfig.default zeroAskQuote orcaQuote = none :=
  check_opportunity_zero_price_none ArbitrageConfig.default zeroAskQuote
    orcaQuote (Or.inl (by norm_num [zeroAskQuote]))

/-- Claim C6, counterexample: `clear_stale_prices(0)` does *not* empty the
cache regardless of content: a quote timestamped in the future satisfies
`(now - timestamp).num_seconds() < 0` and is retained. -/
theorem clear_stale_prices_zero_counterexample :
    clearStalePrices 5 0 futureCache ≠ [] := by
  decide

/-- Claim C6, amended: `clear_stale_prices(max)` retains exactly the cache
entries whose whole-second age `now − timestamp` is strictly less than `max`;
consequently `clear_stale_prices(0)` empties the cache provided no quote is
timestamped in the future, and for `max > 0` exactly the quotes with age
less than `max` seconds survive. -/
theorem clear_stale_prices_retains_fresh (now maxAge : ℤ) (cache : PriceCache) :
    (∀ e, e ∈ clearStalePrices now maxAge cache ↔
      e ∈ cache ∧ now - e.2.timestamp < maxAge)
    ∧ ((∀ e ∈ cache, e.2.timestamp ≤ now) →
        clearStalePrices now 0 cache = []) := by
  constructor
  · intro e
    simp [clearStalePrices, List.mem_filter]
  · intro h
    rw [clearStalePrices, List.filter_eq_nil_iff]
    intro e he
    have := h e he
    simp only [decide_eq_true_eq]
    omega

/-- Witness for C6 (amended): a cache with no future timestamps is emptied
by `clear_stale_prices(0)`. -/
theorem clear_stale_prices_retains_fresh_witness :
    clearStalePrices 5 0 [((solUsdc, DexType.Raydium), raydiumQuote)] = [] :=
  (clear_stale_prices_retains_fresh 5 0
        [((solUsdc, DexType.Raydium), raydiumQuote)]).2
    (by decide)

/-- Claim C5, counterexample: Quotes cached under venues outside
`[Raydium, Orca, Jupiter]` are never consulted: a cache holding only a
Lifinity and a Phoenix quote that cross far above the default threshold
(`check_opportunity` itself would emit: buy Lifinity at 100, sell Phoenix at
150) yields no opportunity from `find_opportunities`. -/
theorem find_opportunities_ignores_other_venues :
    findOpportunities ArbitrageConfig.default lifinityPhoenixCache solUsdc = []
    ∧ (checkOpportunity ArbitrageConfig.default lifinityQuote
        phoenixQuote).isSome := by
  constructor
  · have h : ([DexType.Raydium, DexType.Orca, DexType.Jupiter]).filterMap
        (fun dex => lifinityPhoenixCache.get solUsdc dex) = [] := by decide
    simp [findOpportunities, h, comparePrices]
  · norm_num [checkOpportunity, lifinityQuote, phoenixQuote,
      ArbitrageConfig.default, DexType.feePercentage]

/-- Claim C5, amended: `find_opportunities` gathers exactly the cached quotes
of the three hard-coded venues Raydium, Orca, Jupiter (not all six of
`DexType::all`) and emits exactly the results of `check_opportunity` over
every ordered pair of distinct such venues present in the cache. -/
theorem find_opportunities_mem_iff (config : ArbitrageConfig)
    (cache : PriceCache) (pair : TokenPair) (o : ArbitrageOpportunity) :
    o ∈ findOpportunities config cache pair ↔
      ∃ dexA dexB qa qb,
        dexA ∈ [DexType.Raydium, DexType.Orca, DexType.Jupiter] ∧
        dexB ∈ [DexType.Raydium, DexType.Orca, DexType.Jupiter] ∧
        dexA ≠ dexB ∧
        cache.get pair dexA = some qa ∧
        cache.get pair dexB = some qb ∧
        checkOpportunity config qa qb = some o := by
  unfold findOpportunities
  rcases hR : cache.get pair DexType.Raydium with _ | qR <;>
    rcases hO : cache.get pair DexType.Orca with _ | qO <;>
      rcases hJ : cache.get pair DexType.Jupiter with _ | qJ <;>
        simp [hR, hO, hJ, comparePrices, pairLoop] <;> tauto

/-! ### Claims about the circuit breaker -/

/-- Lemma: `record_failure` increments the failure counter, zeroes the success
counter, stamps the failure time, and preserves the configuration. -/
theorem recordFailure_fields (cb : CircuitBreaker) (now : ℕ) :
    (cb.recordFailure now).consecutiveFailures = cb.consecutiveFailures + 1
    ∧ (cb.recordFailure now).consecutiveSuccesses = 0
    ∧ (cb.recordFailure now).lastFailureTime = some now
    ∧ (cb.recordFailure now).failureThreshold = cb.failureThreshold
    ∧ (cb.recordFailure now).timeout = cb.timeout := by
  unfold CircuitBreaker.recordFailure
  dsimp only
  split_ifs <;> exact ⟨rfl, rfl, rfl, rfl, rfl⟩

/-- Lemma: `record_failure` opens the circuit exactly when the incremented failure
counter reaches the threshold; otherwise the state is untouched. -/
theorem recordFailure_state (cb : CircuitBreaker) (now : ℕ) :
    (cb.recordFailure now).state =
      if cb.failureThreshold ≤ cb.consecutiveFailures + 1 then .Open
      else cb.state := by
  unfold CircuitBreaker.recordFailure
  dsimp only
  split_ifs <;> rfl

/-- Lemma: `record_success` zeroes the failure counter and preserves the
configuration. -/
theorem recordSuccess_fields (cb : CircuitBreaker) :
    cb.recordSuccess.consecutiveFailures = 0
    ∧ cb.recordSuccess.consecutiveSuccesses = cb.consecutiveSuccesses + 1
    ∧ cb.recordSuccess.failureThreshold = cb.failureThreshold
    ∧ cb.recordSuccess.timeout = cb.timeout := by
  unfold CircuitBreaker.recordSuccess
  dsimp only
  split_ifs <;> exact ⟨rfl, rfl, rfl, rfl⟩

/-- A run of `record_failure` calls adds its length to the failure counter
and preserves the configuration. -/
theorem applyFailures_fields (ts : List ℕ) (cb : CircuitBreaker) :
    (cb.applyFailures ts).consecutiveFailures
        = cb.consecutiveFailures + ts.length
    ∧ (cb.applyFailures ts).failureThreshold = cb.failureThreshold
    ∧ (cb.applyFailures ts).timeout = cb.timeout := by
  induction ts generalizing cb with
  | nil => exact ⟨rfl, rfl, rfl⟩
  | cons t rest ih =>
      obtain ⟨hf1, _, _, hf4, hf5⟩ := recordFailure_fields cb t
      obtain ⟨hr1, hr2, hr3⟩ := ih (cb.recordFailure t)
      refine ⟨?_, ?_, ?_⟩ <;>
        simp only [CircuitBreaker.applyFailures, List.foldl_cons,
          List.length_cons] at hr1 hr2 hr3 ⊢
      · rw [hr1, hf1]
        omega
      · rw [hr2, hf4]
      · rw [hr3, hf5]

/-- A run of `record_failure` calls factors through its last call. -/
theorem applyFailures_append (ts : List ℕ) (t : ℕ) (cb : CircuitBreaker) :
    cb.applyFailures (ts ++ [t]) = (cb.applyFailures ts).recordFailure t := by
  simp [CircuitBreaker.applyFailures]

/-- Lemma: `can_execute` on an Open breaker whose cooldown has elapsed: allow the
call and move to HalfOpen. -/
theorem canExecute_open_elapsed (cb : CircuitBreaker) (now lf : ℕ)
    (hs : cb.state = .Open) (hl : cb.lastFailureTime = some lf)
    (ht : cb.timeout ≤ now - lf) :
    cb.canExecute now = (true, { cb with state := .HalfOpen }) := by
  unfold CircuitBreaker.canExecute
  rw [hs, hl]
  dsimp only
  rw [if_pos ht]

/-- Lemma: `can_execute` on an Open breaker whose cooldown has not elapsed: refuse
and leave the breaker unchanged. -/
theorem canExecute_open_early (cb : CircuitBreaker) (now lf : ℕ)
    (hs : cb.state = .Open) (hl : cb.lastFailureTime = some lf)
    (ht : now - lf < cb.timeout) :
    cb.canExecute now = (false, cb) := by
  unfold CircuitBreaker.canExecute
  rw [hs, hl]
  dsimp only
  rw [if_neg (by omega)]

/-- Claim C4: From any breaker, `failure_threshold` consecutive failures (the
last at time `tLast`) open the circuit; a `can_execute` poll at `tPoll` with
the cooldown elapsed returns true and moves to HalfOpen; recording a single
failure there returns the state to Open, so a `can_execute` probe before the
new cooldown elapses returns false. -/
theorem half_open_single_failure_reopens
    (cb : CircuitBreaker) (ts : List ℕ) (tLast tPoll tFail tProbe : ℕ)
    (hlen : ts.length + 1 = cb.failureThreshold)
    (hcool : cb.timeout ≤ tPoll - tLast)
    (hearly : tProbe - tFail < cb.timeout) :
    ((cb.applyFailures (ts ++ [tLast])).canExecute tPoll).1 = true
    ∧ ((cb.applyFailures (ts ++ [tLast])).canExecute tPoll).2.state
        = .HalfOpen
    ∧ ((((cb.applyFailures (ts ++ [tLast])).canExecute tPoll).2).recordFailure
          tFail).state = .Open
    ∧ (((((cb.applyFailures (ts ++ [tLast])).canExecute
          tPoll).2).recordFailure tFail).canExecute tProbe).1 = false := by
  obtain ⟨hB1, hB2, hB3⟩ := applyFailures_fields ts cb
  obtain ⟨hf1, hf2, hf3, hf4, hf5⟩ :=
    recordFailure_fields (cb.applyFailures ts) tLast
  have hsplit := applyFailures_append ts tLast cb
  have hOpen : (cb.applyFailures (ts ++ [tLast])).state = .Open := by
    rw [hsplit, recordFailure_state,
      if_pos (show (cb.applyFailures ts).failureThreshold ≤
          (cb.applyFailures ts).consecutiveFailures + 1 by
        rw [hB2, hB1]
        omega)]
  have hlft : (cb.applyFailures (ts ++ [tLast])).lastFailureTime
      = some tLast := by
    rw [hsplit]
    exact hf3
  have hfailA : cb.failureThreshold ≤
      (cb.applyFailures (ts ++ [tLast])).consecutiveFailures := by
    rw [hsplit, hf1, hB1]
    omega
  have hthrA : (cb.applyFailures (ts ++ [tLast])).failureThreshold
      = cb.failureThreshold := by
    rw [hsplit, hf4, hB2]
  have htmoA : (cb.applyFailures (ts ++ [tLast])).timeout = cb.timeout := by
    rw [hsplit, hf5, hB3]
  have hpoll := canExecute_open_elapsed (cb.applyFailures (ts ++ [tLast]))
    tPoll tLast hOpen hlft (by rw [htmoA]; exact hcool)
  obtain ⟨hg1, hg2, hg3, hg4, hg5⟩ := recordFailure_fields
    { cb.applyFailures (ts ++ [tLast]) with state := .HalfOpen } tFail
  have hDopen : (({ cb.applyFailures (ts ++ [tLast]) with
      state := .HalfOpen } : CircuitBreaker).recordFailure tFail).state
      = .Open := by
    rw [recordFailure_state]
    split_ifs with h
    · rfl
    · exfalso
      apply h
      show (cb.applyFailures (ts ++ [tLast])).failureThreshold ≤
        (cb.applyFailures (ts ++ [tLast])).consecutiveFailures + 1
      rw [hthrA]
      omega
  have hDtmo : (({ cb.applyFailures (ts ++ [tLast]) with
      state := .HalfOpen } : CircuitBreaker).recordFailure tFail).timeout
      = cb.timeout := by
    rw [hg5]
    show (cb.applyFailures (ts ++ [tLast])).timeout = cb.timeout
    exact htmoA
  have hprobe := canExecute_open_early
    (({ cb.applyFailures (ts ++ [tLast]) with
      state := .HalfOpen } : CircuitBreaker).recordFailure tFail)
    tProbe tFail hDopen hg3 (by rw [hDtmo]; exact hearly)
  refine ⟨by rw [hpoll], by rw [hpoll], ?_, ?_⟩
  · rw [hpoll]
    exact hDopen
  · rw [hpoll]
    dsimp only
    rw [hprobe]

/-- Witness for C4: thresholds (2, 1), timeout 10; failures at times 0 and
1, a poll at 11 (cooldown elapsed), a HalfOpen failure at 12, and a probe at
13 (cooldown not elapsed) that is refused. -/
theorem half_open_single_failure_reopens_witness :
    (((CircuitBreaker.new 2 1 10).applyFailures ([0] ++ [1])).canExecute
        11).1 = true
    ∧ (((CircuitBreaker.new 2 1 10).applyFailures
        ([0] ++ [1])).canExecute 11).2.state = .HalfOpen
    ∧ (((((CircuitBreaker.new 2 1 10).applyFailures
        ([0] ++ [1])).canExecute 11).2).recordFailure 12).state = .Open
    ∧ ((((((CircuitBreaker.new 2 1 10).applyFailures
        ([0] ++ [1])).canExecute 11).2).recordFailure 12).canExecute
        13).1 = false :=
  half_open_single_failure_reopens (CircuitBreaker.new 2 1 10) [0] 1 11 12 13
    (by decide) (by decide) (by decide)

/-- Claim C9: Starting from a fresh breaker, after every sequence of
`record_success` / `record_failure` calls at most one of the two consecutive
counters is nonzero: a success zeroes the failure counter, a failure zeroes
the success counter. -/
theorem breaker_counters_mutually_exclusive
    (f s tmo : ℕ) (ops : List BreakerOp) :
    (∀ cb : CircuitBreaker, cb.recordSuccess.consecutiveFailures = 0)
    ∧ (∀ (cb : CircuitBreaker) (now : ℕ),
        (cb.recordFailure now).consecutiveSuccesses = 0)
    ∧ ¬(0 < ((CircuitBreaker.new f s tmo).applyOps ops).consecutiveFailures
        ∧ 0 < ((CircuitBreaker.new f s tmo).applyOps
            ops).consecutiveSuccesses) := by
  refine ⟨fun cb => (recordSuccess_fields cb).1,
    fun cb now => (recordFailure_fields cb now).2.1, ?_⟩
  suffices h : ∀ (ops : List BreakerOp) (cb : CircuitBreaker),
      cb.consecutiveFailures = 0 ∨ cb.consecutiveSuccesses = 0 →
      (cb.applyOps ops).consecutiveFailures = 0
        ∨ (cb.applyOps ops).consecutiveSuccesses = 0 by
    have := h ops (CircuitBreaker.new f s tmo) (Or.inl rfl)
    omega
  intro ops
  induction ops with
  | nil => exact fun cb h => h
  | cons op rest ih =>
      intro cb _
      refine ih (cb.applyOp op) ?_
      cases op with
      | success => exact Or.inl (recordSuccess_fields cb).1
      | failure now => exact Or.inr (recordFailure_fields cb now).2.1

/-! ### Claims about the volatility tracker -/

/-- Claim C8, counterexample: No rational-valued square-root routine can make
the stored volatility exactly `√(λ·r² + (1−λ)·var)`: at window 3 and prices
1 then 2 the claimed variance is `1/2`, and no rational squares to `1/2`, so
the stored (Decimal-valued, hence rational) volatility differs from the
claimed exact square root whatever `f64::sqrt` returns. -/
theorem volatility_exact_sqrt_counterexample : ¬volatilityExactSqrtAtOneHalf := by
  rintro ⟨f, v, hv, hsq⟩
  have hv' : v = f (1 / 2) := by
    simp [VolatilityTracker.updatePrice, VolatilityTracker.new,
      VolatilityTracker.getVolatility, lookupQ, insertQ] at hv
    norm_num at hv
    exact hv.symm
  have h2 : ((2 * v) : ℚ) ^ 2 = 2 := by
    rw [pow_two]
    nlinarith [hsq]
  have hcast : ((|2 * v| : ℚ) : ℝ) ^ 2 = 2 := by
    push_cast
    rw [← abs_pow]
    rw [abs_eq_self.mpr]
    · exact_mod_cast h2
    · positivity
  have hroot : ((|2 * v| : ℚ) : ℝ) = Real.sqrt 2 := by
    rw [← hcast, Real.sqrt_sq (by positivity)]
  exact irrational_sqrt_two ⟨|2 * v|, hroot⟩

/-- Claim C8, amended: `λ = 2/(N+1)`; the first observation for a pair only
seeds the last-price state and emits no volatility; on a subsequent
observation with previous price `p_{t−1}`, the tracker stores the
(f64-mediated, hence approximate) square root applied to
`λ·r² + (1−λ)·v²`, where `r = (p_t − p_{t−1})/p_{t−1}` and `v` is the
previously stored volatility (0 when none); the new last price is always
recorded. -/
theorem volatility_ewma_rule (sqrtApprox : ℚ → ℚ) (t : VolatilityTracker)
    (pair : String) (price : ℚ) (n : ℕ) :
    ((VolatilityTracker.new n).decay = 2 / ((n : ℚ) + 1))
    ∧ (((VolatilityTracker.new n).updatePrice sqrtApprox pair
          price).getVolatility pair = none)
    ∧ (lookupQ t.lastPrices pair = none →
        (t.updatePrice sqrtApprox pair price).volatilities = t.volatilities)
    ∧ (lookupQ (t.updatePrice sqrtApprox pair price).lastPrices pair
        = some price)
    ∧ (∀ lastPrice, lookupQ t.lastPrices pair = some lastPrice →
        (t.updatePrice sqrtApprox pair price).getVolatility pair =
          some (sqrtApprox (t.decay *
                (((price - lastPrice) / lastPrice)
                  * ((price - lastPrice) / lastPrice))
              + (1 - t.decay) *
                (((t.getVolatility pair).getD 0)
                  * ((t.getVolatility pair).getD 0))))) := by
  refine ⟨rfl, ?_, ?_, ?_, ?_⟩
  · simp [VolatilityTracker.updatePrice, VolatilityTracker.new,
      VolatilityTracker.getVolatility, lookupQ]
  · intro hnone
    simp [VolatilityTracker.updatePrice, hnone]
  · unfold VolatilityTracker.updatePrice
    cases h : lookupQ t.lastPrices pair <;>
      simp [insertQ, lookupQ]
  · intro lastPrice hsome
    have hg : t.getVolatility pair = lookupQ t.volatilities pair := rfl
    unfold VolatilityTracker.updatePrice
    rw [hsome]
    dsimp only
    rw [hg]
    cases hvol : lookupQ t.volatilities pair <;>
      simp [VolatilityTracker.getVolatility, lookupQ, insertQ]

/-- Witness for C8 (amended): a tracker with `λ = 1/2`, last price 1 for
`"SOL"`, no stored volatility, updated with price 2 under the identity in
place of the square-root routine, stores `1/2·1 + 1/2·0 = 1/2`. -/
theorem volatility_ewma_rule_witness :
    ((VolatilityTracker.mk [] [("SOL", 1)] (1 / 2)).updatePrice (fun q => q)
        "SOL" 2).getVolatility "SOL" = some (1 / 2) := by
  have h := (volatility_ewma_rule (fun q => q)
      (VolatilityTracker.mk [] [("SOL", 1)] (1 / 2)) "SOL" 2 3).2.2.2.2 1
      (by simp [lookupQ])
  rw [h]
  norm_num [VolatilityTracker.getVolatility, lookupQ]

/-! ### Claims about the submission retry loop -/

/-- The retry loop makes at most `remaining` attempts. -/
theorem submitRetryAux_attempts_le (f : ℕ → Except String String) :
    ∀ (remaining attempt : ℕ) (le : Option String),
    (submitRetryAux f attempt le remaining).2.2 ≤ remaining := by
  intro remaining
  induction remaining with
  | zero =>
      intro attempt le
      simp [submitRetryAux]
  | succ r ih =>
      intro attempt le
      cases hf : f attempt with
      | ok s => simp [submitRetryAux, hf]
      | error e =>
          have := ih (attempt + 1) (some e)
          simp only [submitRetryAux, hf]
          omega

/-- The retry loop returns at the first success, counting its attempts and
having slept once per earlier failure. -/
theorem submitRetryAux_first_success (f : ℕ → Except String String) :
    ∀ (k remaining attempt : ℕ) (le : Option String) (s : String),
    k < remaining → f (attempt + k) = .ok s →
    (∀ i, i < k → ∃ e, f (attempt + i) = .error e) →
    submitRetryAux f attempt le remaining =
      (.ok s, (List.range k).map (fun i => 500 * 2 ^ (attempt + i)), k + 1) := by
  intro k
  induction k with
  | zero =>
      intro remaining attempt le s hk hok _
      obtain ⟨r, rfl⟩ : ∃ r, remaining = r + 1 := ⟨remaining - 1, by omega⟩
      rw [Nat.add_zero] at hok
      simp [submitRetryAux, hok]
  | succ k ih =>
      intro remaining attempt le s hk hok hfail
      obtain ⟨r, rfl⟩ : ∃ r, remaining = r + 1 := ⟨remaining - 1, by omega⟩
      obtain ⟨e, he⟩ := hfail 0 (by omega)
      rw [Nat.add_zero] at he
      have hrec := ih r (attempt + 1) (some e) s (by omega)
        (by rw [show attempt + 1 + k = attempt + (k + 1) by omega]; exact hok)
        (fun i hi => by
          obtain ⟨e', he'⟩ := hfail (i + 1) (by omega)
          exact ⟨e', by
            rw [show attempt + 1 + i = attempt + (i + 1) by omega]
            exact he'⟩)
      simp only [submitRetryAux, he, hrec]
      refine Prod.ext rfl (Prod.ext ?_ rfl)
      show 500 * 2 ^ attempt ::
          (List.range k).map (fun i => 500 * 2 ^ (attempt + 1 + i)) =
        (List.range (k + 1)).map (fun i => 500 * 2 ^ (attempt + i))
      rw [List.range_succ_eq_map, List.map_cons, List.map_map]
      congr 1
      refine List.map_congr_left (fun i _ => ?_)
      show 500 * 2 ^ (attempt + 1 + i) = 500 * 2 ^ (attempt + (i + 1))
      rw [show attempt + 1 + i = attempt + (i + 1) by omega]

/-- One unrolling of the retry loop. -/
theorem submitRetryAux_step (f : ℕ → Except String String)
    (attempt : ℕ) (le : Option String) (r : ℕ) :
    submitRetryAux f attempt le (r + 1) =
      match f attempt with
      | .ok sig => (.ok sig, [], 1)
      | .error e =>
          ((submitRetryAux f (attempt + 1) (some e) r).1,
            500 * 2 ^ attempt
              :: (submitRetryAux f (attempt + 1) (some e) r).2.1,
            (submitRetryAux f (attempt + 1) (some e) r).2.2 + 1) := rfl

/-- When every attempt fails, the loop runs them all, sleeps after each one,
and surfaces the last attempt's error. -/
theorem submitRetryAux_all_fail (f : ℕ → Except String String) :
    ∀ (remaining attempt : ℕ) (le : Option String),
    1 ≤ remaining →
    (∀ i, i < remaining → ∃ e, f (attempt + i) = .error e) →
    (submitRetryAux f attempt le remaining).1 = f (attempt + remaining - 1)
    ∧ (submitRetryAux f attempt le remaining).2.1 =
        (List.range remaining).map (fun i => 500 * 2 ^ (attempt + i))
    ∧ (submitRetryAux f attempt le remaining).2.2 = remaining := by
  intro remaining
  induction remaining with
  | zero =>
      intro attempt le h1
      omega
  | succ r ih =>
      intro attempt le h1 hfail
      obtain ⟨e, he⟩ := hfail 0 (by omega)
      rw [Nat.add_zero] at he
      cases r with
      | zero =>
          refine ⟨?_, ?_, ?_⟩ <;>
            simp [submitRetryAux, he, List.range_succ]
      | succ r' =>
          obtain ⟨ih1, ih2, ih3⟩ := ih (attempt + 1) (some e) (by omega)
            (fun i hi => by
              obtain ⟨e', he'⟩ := hfail (i + 1) (by omega)
              exact ⟨e', by
                rw [show attempt + 1 + i = attempt + (i + 1) by omega]
                exact he'⟩)
          refine ⟨?_, ?_, ?_⟩
          · rw [submitRetryAux_step, he]
            dsimp only
            rw [ih1]
            rw [show attempt + 1 + (r' + 1) - 1 = attempt + (r' + 1 + 1) - 1
              by omega]
          · rw [submitRetryAux_step, he]
            dsimp only
            rw [ih2]
            show 500 * 2 ^ attempt :: (List.range (r' + 1)).map
                (fun i => 500 * 2 ^ (attempt + 1 + i)) =
              (List.range (r' + 1 + 1)).map (fun i => 500 * 2 ^ (attempt + i))
            conv_rhs => rw [List.range_succ_eq_map, List.map_cons, List.map_map]
            congr 1
            refine List.map_congr_left (fun i _ => ?_)
            show 500 * 2 ^ (attempt + 1 + i) = 500 * 2 ^ (attempt + (i + 1))
            rw [show attempt + 1 + i = attempt + (i + 1) by omega]
          · rw [submitRetryAux_step, he]
            dsimp only
            rw [ih3]

/-- Claim C7: The retry loop makes at most `max_retries` attempts; it stops at
the first success having slept `500·2^i` ms after each earlier failed
attempt `i`; and when every attempt fails it surfaces the last attempt's
error after sleeping once per attempt. -/
theorem submit_with_retry_spec (maxRetries : ℕ)
    (f : ℕ → Except String String) :
    ((submitWithRetry maxRetries f).2.2 ≤ maxRetries)
    ∧ (∀ k s, k < maxRetries → f k = .ok s →
        (∀ i, i < k → ∃ e, f i = .error e) →
        submitWithRetry maxRetries f =
          (.ok s, (List.range k).map (fun i => 500 * 2 ^ i), k + 1))
    ∧ (1 ≤ maxRetries → (∀ i, i < maxRetries → ∃ e, f i = .error e) →
        (submitWithRetry maxRetries f).1 = f (maxRetries - 1)
        ∧ (submitWithRetry maxRetries f).2.1 =
            (List.range maxRetries).map (fun i => 500 * 2 ^ i)
        ∧ (submitWithRetry maxRetries f).2.2 = maxRetries) := by
  refine ⟨submitRetryAux_attempts_le f maxRetries 0 none, ?_, ?_⟩
  · intro k s hk hok hfail
    have h := submitRetryAux_first_success f k maxRetries 0 none s hk
      (by rw [Nat.zero_add]; exact hok)
      (fun i hi => by rw [Nat.zero_add]; exact hfail i hi)
    rw [submitWithRetry, h]
    simp [Nat.zero_add]
  · intro h1 hfail
    have h := submitRetryAux_all_fail f maxRetries 0 none h1
      (fun i hi => by rw [Nat.zero_add]; exact hfail i hi)
    rw [submitWithRetry]
    refine ⟨by rw [h.1, Nat.zero_add], ?_, h.2.2⟩
    rw [h.2.1]
    simp [Nat.zero_add]

/-- Witness for C7: with three allowed attempts, outcome "fail then
succeed" returns the attempt-1 signature after two attempts and one 500 ms
sleep. -/
theorem submit_with_retry_spec_witness :
    submitWithRetry 3 retryOutcomesEx = (.ok "sig", [500], 2) := by
  have h := (submit_with_retry_spec 3 retryOutcomesEx).2.1 1 "sig"
    (by norm_num) (by simp [retryOutcomesEx])
    (fun i hi => ⟨"blockhash expired", by
      have : i = 0 := by omega
      simp [this, retryOutcomesEx]⟩)
  rw [h]
  rfl

/-! ### Lemmas about the decompilation pipeline -/

/-- A successful fallible map converts every element in place. -/
theorem exceptMap_ok {α β : Type} {g : α → Except DecompileError β} :
    ∀ {l : List α} {ys : List β}, exceptMap g l = .ok ys →
      ys.length = l.length
      ∧ ∀ (j : ℕ) (x : α), l[j]? = some x →
          ∃ y, ys[j]? = some y ∧ g x = .ok y := by
  intro l
  induction l with
  | nil =>
      intro ys h
      cases hys : ys with
      | nil => simp
      | cons y ys' =>
          rw [show exceptMap g [] = .ok [] from rfl, hys] at h
          cases h
  | cons x rest ih =>
      intro ys h
      unfold exceptMap at h
      cases hg : g x with
      | error e => rw [hg] at h; cases h
      | ok y =>
          rw [hg] at h
          cases hm : exceptMap g rest with
          | error e => rw [hm] at h; cases h
          | ok ys' =>
              rw [hm] at h
              cases h
              obtain ⟨ihl, ihg⟩ := ih hm
              refine ⟨by simp [ihl], ?_⟩
              intro j z hj
              cases j with
              | zero =>
                  simp only [List.getElem?_cons_zero, Option.some.injEq] at hj
                  subst hj
                  refine ⟨y, ?_, hg⟩
                  simp
              | succ j' =>
                  simp only [List.getElem?_cons_succ] at hj ⊢
                  exact ihg j' z hj

/-- A failing fallible map fails on one of its elements. -/
theorem exceptMap_error {α β : Type} {g : α → Except DecompileError β} :
    ∀ {l : List α} {e : DecompileError}, exceptMap g l = .error e →
      ∃ x ∈ l, g x = .error e := by
  intro l
  induction l with
  | nil => intro e h; cases h
  | cons x rest ih =>
      intro e h
      unfold exceptMap at h
      cases hg : g x with
      | error e0 =>
          rw [hg] at h
          cases h
          exact ⟨x, by simp, hg⟩
      | ok y =>
          rw [hg] at h
          cases hm : exceptMap g rest with
          | error e0 =>
              rw [hm] at h
              cases h
              obtain ⟨z, hz, hgz⟩ := ih hm
              exact ⟨z, by simp [hz], hgz⟩
          | ok ys' => rw [hm] at h; cases h

/-- A fallible map with a failing element fails as a whole. -/
theorem exceptMap_error_of_mem {α β : Type} {g : α → Except DecompileError β} :
    ∀ {l : List α} {x : α} {e : DecompileError}, x ∈ l → g x = .error e →
      ∃ e2, exceptMap g l = .error e2 := by
  intro l
  induction l with
  | nil => intro x e hx; cases hx
  | cons z rest ih =>
      intro x e hx hgx
      unfold exceptMap
      cases hg : g z with
      | error e0 => exact ⟨e0, rfl⟩
      | ok y =>
          rcases List.mem_cons.mp hx with rfl | hx'
          · rw [hg] at hgx; cases hgx
          · obtain ⟨e2, h2⟩ := ih hx' hgx
            rw [h2]
            exact ⟨e2, rfl⟩

/-- Lemma: `keys[idx]` succeeds exactly in range, with the indexed key. -/
theorem keyAt_ok {keys : List Pubkey} {idx : ℕ} {p : Pubkey}
    (h : keyAt keys idx = .ok p) :
    idx < keys.length ∧ p = keys.getD idx 0 := by
  by_cases hb : idx < keys.length
  · rw [keyAt, dif_pos hb] at h
    cases h
    refine ⟨hb, ?_⟩
    rw [List.getD_eq_getElem?_getD, List.getElem?_eq_getElem hb]
    simp [List.get_eq_getElem]
  · rw [keyAt, dif_neg hb] at h
    cases h

/-- Lemma: `keys[idx]` aborts by panic exactly out of range. -/
theorem keyAt_error {keys : List Pubkey} {idx : ℕ} {e : DecompileError}
    (h : keyAt keys idx = .error e) :
    e = .panicIndexOutOfBounds idx ∧ keys.length ≤ idx := by
  by_cases hb : idx < keys.length
  · rw [keyAt, dif_pos hb] at h
    cases h
  · rw [keyAt, dif_neg hb] at h
    cases h
    exact ⟨rfl, by omega⟩

/-- Successful with-lookups classification: the meta's fields. -/
theorem v0AccountMeta_ok {header : MessageHeader} {staticLen writableLen : ℕ}
    {fullKeys : List Pubkey} {idx : ℕ} {m : AccountMeta}
    (h : v0AccountMeta header staticLen writableLen fullKeys idx = .ok m) :
    idx < fullKeys.length
    ∧ m.pubkey = fullKeys.getD idx 0
    ∧ m.isSigner = decide (idx < header.numRequiredSignatures)
    ∧ m.isWritable =
        (if idx < staticLen then
          (if idx < header.numRequiredSignatures then
            decide (idx < header.numRequiredSignatures
              - header.numReadonlySignedAccounts)
          else
            decide (idx < staticLen - header.numReadonlyUnsignedAccounts))
        else
          decide (idx < staticLen + writableLen)) := by
  by_cases hb : idx < fullKeys.length
  · rw [v0AccountMeta, dif_pos hb] at h
    dsimp only at h
    cases h
    refine ⟨hb, ?_, rfl, ?_⟩
    · show fullKeys.get ⟨idx, hb⟩ = fullKeys.getD idx 0
      rw [List.getD_eq_getElem?_getD, List.getElem?_eq_getElem hb]
      simp [List.get_eq_getElem]
    · by_cases hst : idx < staticLen
      · by_cases hs : idx < header.numRequiredSignatures
        · simp [hst, hs]
        · simp [hst, hs]
      · simp [hst]
  · rw [v0AccountMeta, dif_neg hb] at h
    cases h

/-- With-lookups classification panics exactly out of range. -/
theorem v0AccountMeta_error {header : MessageHeader}
    {staticLen writableLen : ℕ} {fullKeys : List Pubkey} {idx : ℕ}
    {e : DecompileError}
    (h : v0AccountMeta header staticLen writableLen fullKeys idx = .error e) :
    e = .panicIndexOutOfBounds idx ∧ fullKeys.length ≤ idx := by
  by_cases hb : idx < fullKeys.length
  · rw [v0AccountMeta, dif_pos hb] at h
    dsimp only at h
    cases h
  · rw [v0AccountMeta, dif_neg hb] at h
    cases h
    exact ⟨rfl, by omega⟩

/-- Successful no-lookup classification: the meta's fields. -/
theorem v0AccountMetaNoLookups_ok {header : MessageHeader}
    {accountKeysLen : ℕ} {fullKeys : List Pubkey} {idx : ℕ} {m : AccountMeta}
    (h : v0AccountMetaNoLookups header accountKeysLen fullKeys idx = .ok m) :
    idx < fullKeys.length
    ∧ m.pubkey = fullKeys.getD idx 0
    ∧ m.isSigner = decide (idx < header.numRequiredSignatures)
    ∧ m.isWritable =
        (if idx < header.numRequiredSignatures then
          decide (idx < header.numRequiredSignatures
            - header.numReadonlySignedAccounts)
        else
          decide (idx < accountKeysLen
            - header.numReadonlyUnsignedAccounts)) := by
  by_cases hb : idx < fullKeys.length
  · rw [v0AccountMetaNoLookups, dif_pos hb] at h
    dsimp only at h
    cases h
    refine ⟨hb, ?_, rfl, ?_⟩
    · show fullKeys.get ⟨idx, hb⟩ = fullKeys.getD idx 0
      rw [List.getD_eq_getElem?_getD, List.getElem?_eq_getElem hb]
      simp [List.get_eq_getElem]
    · by_cases hs : idx < header.numRequiredSignatures
      · simp [hs]
      · simp [hs]
  · rw [v0AccountMetaNoLookups, dif_neg hb] at h
    cases h

/-- Successful instruction conversion: program id, metas, and data carried
over. -/
theorem convertInstr_ok
    {metaAt : ℕ → Except DecompileError AccountMeta} {keys : List Pubkey}
    {ix : CompiledInstruction} {instr : Instruction}
    (h : convertInstr metaAt keys ix = .ok instr) :
    keyAt keys ix.programIdIndex = .ok instr.programId
    ∧ exceptMap metaAt ix.accounts = .ok instr.accounts
    ∧ instr.data = ix.data := by
  unfold convertInstr at h
  cases hp : keyAt keys ix.programIdIndex with
  | error e => rw [hp] at h; cases h
  | ok pid =>
      rw [hp] at h
      cases hm : exceptMap metaAt ix.accounts with
      | error e => rw [hm] at h; cases h
      | ok accs =>
          rw [hm] at h
          cases h
          exact ⟨rfl, rfl, rfl⟩

/-- When every meta failure is a panic, every conversion failure is a
panic. -/
theorem convertInstr_error_panic
    {metaAt : ℕ → Except DecompileError AccountMeta} {keys : List Pubkey}
    {ix : CompiledInstruction} {e : DecompileError}
    (hmeta : ∀ i e0, metaAt i = .error e0 →
      ∃ j, e0 = .panicIndexOutOfBounds j)
    (h : convertInstr metaAt keys ix = .error e) :
    ∃ j, e = .panicIndexOutOfBounds j := by
  unfold convertInstr at h
  cases hp : keyAt keys ix.programIdIndex with
  | error e0 =>
      rw [hp] at h
      cases h
      exact ⟨ix.programIdIndex, (keyAt_error hp).1⟩
  | ok pid =>
      rw [hp] at h
      cases hm : exceptMap metaAt ix.accounts with
      | error e0 =>
          rw [hm] at h
          cases h
          obtain ⟨x, _, hx⟩ := exceptMap_error hm
          exact hmeta x _ hx
      | ok accs => rw [hm] at h; cases h

/-- Successful index resolution maps each index to its table address (all in
range). -/
theorem resolveIndexes_ok {table : AddressLookupTableAccount} :
    ∀ {idxs : List ℕ} {ws : List Pubkey},
    resolveIndexes table idxs = .ok ws →
    ws = idxs.map (fun i => table.addresses.getD i 0) := by
  intro idxs
  induction idxs with
  | nil =>
      intro ws h
      cases h
      rfl
  | cons idx rest ih =>
      intro ws h
      by_cases hb : idx < table.addresses.length
      · rw [resolveIndexes, dif_pos hb] at h
        cases hr : resolveIndexes table rest with
        | ok tail =>
            rw [hr] at h
            cases h
            rw [List.map_cons, ← ih hr]
            refine congrArg₂ _ ?_ rfl
            rw [List.getD_eq_getElem?_getD, List.getElem?_eq_getElem hb]
            simp [List.get_eq_getElem]
        | error e =>
            rw [hr] at h
            cases h
      · rw [resolveIndexes, dif_neg hb] at h
        cases h

/-- Index-resolution failures are the descriptive out-of-bounds decode
error. -/
theorem resolveIndexes_error_shape {table : AddressLookupTableAccount} :
    ∀ {idxs : List ℕ} {e : DecompileError},
    resolveIndexes table idxs = .error e →
    ∃ i, e = .lookupIndexOutOfBounds i table.key := by
  intro idxs
  induction idxs with
  | nil =>
      intro e h
      cases h
  | cons idx rest ih =>
      intro e h
      by_cases hb : idx < table.addresses.length
      · rw [resolveIndexes, dif_pos hb] at h
        cases hr : resolveIndexes table rest with
        | ok tail => rw [hr] at h; cases h
        | error e0 =>
            rw [hr] at h
            cases h
            exact ih hr
      · rw [resolveIndexes, dif_neg hb] at h
        cases h
        exact ⟨idx, rfl⟩

/-- An out-of-range index in the list makes index resolution fail. -/
theorem resolveIndexes_error_of_oob {table : AddressLookupTableAccount} :
    ∀ {idxs : List ℕ} {i : ℕ}, i ∈ idxs → table.addresses.length ≤ i →
    ∃ e, resolveIndexes table idxs = .error e := by
  intro idxs
  induction idxs with
  | nil =>
      intro i hi
      cases hi
  | cons idx rest ih =>
      intro i hi hlen
      by_cases hb : idx < table.addresses.length
      · rcases List.mem_cons.mp hi with rfl | hi'
        · omega
        · obtain ⟨e, he⟩ := ih hi' hlen
          rw [resolveIndexes, dif_pos hb, he]
          exact ⟨e, rfl⟩
      · rw [resolveIndexes, dif_neg hb]
        exact ⟨_, rfl⟩

/-- One unrolling of the lookup-resolution loop. -/
theorem resolveLookups_cons (tables : List AddressLookupTableAccount)
    (l : MessageAddressTableLookup)
    (rest : List MessageAddressTableLookup) :
    resolveLookups tables (l :: rest) =
      match tables.find? (fun t => t.key = l.accountKey) with
      | none => .error (.missingTable l.accountKey)
      | some table =>
          match resolveIndexes table l.writableIndexes with
          | .error e => .error e
          | .ok ws =>
              match resolveIndexes table l.readonlyIndexes with
              | .error e => .error e
              | .ok rs =>
                  match resolveLookups tables rest with
                  | .error e => .error e
                  | .ok (wRest, rRest) =>
                      .ok (ws ++ wRest, rs ++ rRest) := rfl

/-- Successful lookup resolution produces exactly the spec's concatenated
dynamic address lists, in lookup order. -/
theorem resolveLookups_ok {tables : List AddressLookupTableAccount} :
    ∀ {lookups : List MessageAddressTableLookup} {w r : List Pubkey},
    resolveLookups tables lookups = .ok (w, r) →
    w = specDynamicWritable tables lookups
    ∧ r = specDynamicReadonly tables lookups := by
  intro lookups
  induction lookups with
  | nil =>
      intro w r h
      cases h
      exact ⟨rfl, rfl⟩
  | cons l rest ih =>
      intro w r h
      rw [resolveLookups_cons] at h
      cases hf : tables.find? (fun t => t.key = l.accountKey) with
      | none =>
          simp only [hf] at h
          cases h
      | some table =>
          simp only [hf] at h
          cases hw : resolveIndexes table l.writableIndexes with
          | error e =>
              simp only [hw] at h
              cases h
          | ok ws =>
              simp only [hw] at h
              cases hro : resolveIndexes table l.readonlyIndexes with
              | error e =>
                  simp only [hro] at h
                  cases h
              | ok rs =>
                  simp only [hro] at h
                  cases hrec : resolveLookups tables rest with
                  | error e =>
                      simp only [hrec] at h
                      cases h
                  | ok pr =>
                      obtain ⟨wR, rR⟩ := pr
                      simp only [hrec] at h
                      cases h
                      obtain ⟨ih1, ih2⟩ := ih hrec
                      have htab : tableAddresses tables l.accountKey
                          = table.addresses := by
                        rw [tableAddresses, hf]
                        rfl
                      constructor
                      · show ws ++ wR
                          = specDynamicWritable tables (l :: rest)
                        rw [specDynamicWritable, List.foldr_cons]
                        refine congrArg₂ _ ?_ ih1
                        rw [resolveIndexes_ok hw, htab]
                      · show rs ++ rR
                          = specDynamicReadonly tables (l :: rest)
                        rw [specDynamicReadonly, List.foldr_cons]
                        refine congrArg₂ _ ?_ ih2
                        rw [resolveIndexes_ok hro, htab]

/-- Every lookup-resolution failure is a returned (`anyhow!`) decode error,
never a panic. -/
theorem resolveLookups_error_returned
    {tables : List AddressLookupTableAccount} :
    ∀ {lookups : List MessageAddressTableLookup} {e : DecompileError},
    resolveLookups tables lookups = .error e →
    e.isReturnedError = true := by
  intro lookups
  induction lookups with
  | nil =>
      intro e h
      cases h
  | cons l rest ih =>
      intro e h
      rw [resolveLookups_cons] at h
      cases hf : tables.find? (fun t => t.key = l.accountKey) with
      | none =>
          simp only [hf] at h
          cases h
          rfl
      | some table =>
          simp only [hf] at h
          cases hw : resolveIndexes table l.writableIndexes with
          | error e0 =>
              simp only [hw] at h
              cases h
              obtain ⟨i, rfl⟩ := resolveIndexes_error_shape hw
              rfl
          | ok ws =>
              simp only [hw] at h
              cases hro : resolveIndexes table l.readonlyIndexes with
              | error e0 =>
                  simp only [hro] at h
                  cases h
                  obtain ⟨i, rfl⟩ := resolveIndexes_error_shape hro
                  rfl
              | ok rs =>
                  simp only [hro] at h
                  cases hrec : resolveLookups tables rest with
                  | error e0 =>
                      simp only [hrec] at h
                      cases h
                      exact ih hrec
                  | ok pr =>
                      obtain ⟨wR, rR⟩ := pr
                      simp only [hrec] at h
                      cases h

/-- A lookup whose table is absent from the response makes resolution
fail. -/
theorem resolveLookups_error_of_missing
    {tables : List AddressLookupTableAccount} :
    ∀ {lookups : List MessageAddressTableLookup}
      {lookup : MessageAddressTableLookup},
    lookup ∈ lookups →
    tables.find? (fun t => t.key = lookup.accountKey) = none →
    ∃ e, resolveLookups tables lookups = .error e := by
  intro lookups
  induction lookups with
  | nil =>
      intro lookup hm
      cases hm
  | cons l rest ih =>
      intro lookup hm hnone
      rcases List.mem_cons.mp hm with rfl | hm'
      · exact ⟨.missingTable lookup.accountKey, by
          rw [resolveLookups_cons]
          simp only [hnone]⟩
      · cases hf : tables.find? (fun t => t.key = l.accountKey) with
        | none =>
            exact ⟨.missingTable l.accountKey, by
              rw [resolveLookups_cons]
              simp only [hf]⟩
        | some table =>
            cases hw : resolveIndexes table l.writableIndexes with
            | error e =>
                exact ⟨e, by rw [resolveLookups_cons]; simp only [hf, hw]⟩
            | ok ws =>
                cases hro : resolveIndexes table l.readonlyIndexes with
                | error e =>
                    exact ⟨e, by
                      rw [resolveLookups_cons]
                      simp only [hf, hw, hro]⟩
                | ok rs =>
                    obtain ⟨e, he⟩ := ih hm' hnone
                    exact ⟨e, by
                      rw [resolveLookups_cons]
                      simp only [hf, hw, hro, he]⟩

/-- A lookup whose table is present but with an out-of-range writable or
readonly index makes resolution fail. -/
theorem resolveLookups_error_of_oob
    {tables : List AddressLookupTableAccount} :
    ∀ {lookups : List MessageAddressTableLookup}
      {lookup : MessageAddressTableLookup}
      {table : AddressLookupTableAccount} {idx : ℕ},
    lookup ∈ lookups →
    tables.find? (fun t => t.key = lookup.accountKey) = some table →
    (idx ∈ lookup.writableIndexes ∨ idx ∈ lookup.readonlyIndexes) →
    table.addresses.length ≤ idx →
    ∃ e, resolveLookups tables lookups = .error e := by
  intro lookups
  induction lookups with
  | nil =>
      intro lookup table idx hm
      cases hm
  | cons l rest ih =>
      intro lookup table idx hm hf hidx hlen
      rcases List.mem_cons.mp hm with rfl | hm'
      · rcases hidx with hwm | hrom
        · obtain ⟨e, he⟩ := resolveIndexes_error_of_oob hwm hlen
          exact ⟨e, by rw [resolveLookups_cons]; simp only [hf, he]⟩
        · cases hws : resolveIndexes table lookup.writableIndexes with
          | error e =>
              exact ⟨e, by rw [resolveLookups_cons]; simp only [hf, hws]⟩
          | ok ws =>
              obtain ⟨e, he⟩ := resolveIndexes_error_of_oob hrom hlen
              exact ⟨e, by
                rw [resolveLookups_cons]
                simp only [hf, hws, he]⟩
      · cases hf0 : tables.find? (fun t => t.key = l.accountKey) with
        | none =>
            exact ⟨.missingTable l.accountKey, by
              rw [resolveLookups_cons]
              simp only [hf0]⟩
        | some table0 =>
            cases hws : resolveIndexes table0 l.writableIndexes with
            | error e =>
                exact ⟨e, by rw [resolveLookups_cons]; simp only [hf0, hws]⟩
            | ok ws =>
                cases hros : resolveIndexes table0 l.readonlyIndexes with
                | error e =>
                    exact ⟨e, by
                      rw [resolveLookups_cons]
                      simp only [hf0, hws, hros]⟩
                | ok rs =>
                    obtain ⟨e, he⟩ := ih hm' hf hidx hlen
                    exact ⟨e, by
                      rw [resolveLookups_cons]
                      simp only [hf0, hws, hros, he]⟩

/-- Unfolding a successful legacy extraction. -/
theorem extractLegacy_ok {msg : LegacyMessage} {instrs : List Instruction}
    {tbls : List AddressLookupTableAccount}
    (h : extractLegacy msg = .ok (instrs, tbls)) :
    exceptMap
      (convertInstr
        (legacyAccountMeta msg.header msg.accountKeys.length msg.accountKeys)
        msg.accountKeys)
      msg.instructions = .ok instrs := by
  unfold extractLegacy at h
  cases hm : exceptMap
      (convertInstr
        (legacyAccountMeta msg.header msg.accountKeys.length msg.accountKeys)
        msg.accountKeys)
      msg.instructions with
  | error e =>
      simp only [hm] at h
      cases h
  | ok is =>
      simp only [hm] at h
      cases h
      rfl

/-- Unfolding a successful V0 no-lookup extraction. -/
theorem extractV0NoLookups_ok {msg : V0Message} {instrs : List Instruction}
    {tbls : List AddressLookupTableAccount}
    (h : extractV0NoLookups msg = .ok (instrs, tbls)) :
    exceptMap
      (convertInstr
        (v0AccountMetaNoLookups msg.header msg.accountKeys.length
          msg.accountKeys)
        msg.accountKeys)
      msg.instructions = .ok instrs := by
  unfold extractV0NoLookups at h
  cases hm : exceptMap
      (convertInstr
        (v0AccountMetaNoLookups msg.header msg.accountKeys.length
          msg.accountKeys)
        msg.accountKeys)
      msg.instructions with
  | error e =>
      simp only [hm] at h
      cases h
  | ok is =>
      simp only [hm] at h
      cases h
      rfl

/-- Unfolding a successful V0 with-lookups extraction: the resolved dynamic
lists and the instruction map. -/
theorem extractV0WithLookups_ok {msg : V0Message}
    {tables : List AddressLookupTableAccount} {instrs : List Instruction}
    {tbls : List AddressLookupTableAccount}
    (h : extractV0WithLookups msg tables = .ok (instrs, tbls)) :
    ∃ w r, resolveLookups tables msg.addressTableLookups = .ok (w, r)
      ∧ exceptMap
          (convertInstr
            (v0AccountMeta msg.header msg.accountKeys.length w.length
              (msg.accountKeys ++ w ++ r))
            (msg.accountKeys ++ w ++ r))
          msg.instructions = .ok instrs
      ∧ tbls = tables := by
  unfold extractV0WithLookups at h
  cases hres : resolveLookups tables msg.addressTableLookups with
  | error e =>
      simp only [hres] at h
      cases h
  | ok pr =>
      obtain ⟨w, r⟩ := pr
      simp only [hres] at h
      cases hm : exceptMap
          (convertInstr
            (v0AccountMeta msg.header msg.accountKeys.length w.length
              (msg.accountKeys ++ w ++ r))
            (msg.accountKeys ++ w ++ r))
          msg.instructions with
      | error e =>
          simp only [hm] at h
          cases h
      | ok is =>
          simp only [hm] at h
          cases h
          exact ⟨w, r, rfl, hm, rfl⟩

/-- With a nonempty lookup list, `extractV0` takes the with-lookups branch
(given a configured manager response). -/
theorem extractV0_lookups_branch {msg : V0Message}
    {tables : List AddressLookupTableAccount}
    (hne : msg.addressTableLookups ≠ []) :
    extractV0 msg (some tables) = extractV0WithLookups msg tables := by
  rw [extractV0, if_neg]
  simp [List.isEmpty_iff, hne]

/-- An out-of-range index makes the with-lookups classification panic. -/
theorem v0AccountMeta_error_of_oob {header : MessageHeader}
    {staticLen writableLen : ℕ} {fullKeys : List Pubkey} {idx : ℕ}
    (h : fullKeys.length ≤ idx) :
    v0AccountMeta header staticLen writableLen fullKeys idx
      = .error (.panicIndexOutOfBounds idx) := by
  rw [v0AccountMeta, dif_neg (by omega)]

/-- An instruction with any out-of-range program or account index fails to
convert. -/
theorem convertInstr_error_of_oob
    {metaAt : ℕ → Except DecompileError AccountMeta} {keys : List Pubkey}
    {ix : CompiledInstruction}
    (hmeta : ∀ i, keys.length ≤ i → ∃ e, metaAt i = .error e)
    (hoob : keys.length ≤ ix.programIdIndex
      ∨ ∃ idx, idx ∈ ix.accounts ∧ keys.length ≤ idx) :
    ∃ e, convertInstr metaAt keys ix = .error e := by
  unfold convertInstr
  cases hp : keyAt keys ix.programIdIndex with
  | error e => exact ⟨e, rfl⟩
  | ok pid =>
      rcases hoob with hpid | ⟨idx, hidxmem, hidxlen⟩
      · obtain ⟨hlt, _⟩ := keyAt_ok hp
        omega
      · obtain ⟨e0, he0⟩ := hmeta idx hidxlen
        obtain ⟨e2, he2⟩ := exceptMap_error_of_mem hidxmem he0
        rw [he2]
        exact ⟨e2, rfl⟩

/-- A successful instruction map gives, per instruction, a resolved
instruction with the same number of accounts and the same data. -/
theorem exceptMap_convert_complete
    {metaAt : ℕ → Except DecompileError AccountMeta} {keys : List Pubkey}
    {l : List CompiledInstruction} {instrs : List Instruction}
    (h : exceptMap (convertInstr metaAt keys) l = .ok instrs) :
    instrs.length = l.length
    ∧ ∀ (j : ℕ) (cix : CompiledInstruction), l[j]? = some cix →
        ∃ rix, instrs[j]? = some rix
          ∧ rix.accounts.length = cix.accounts.length
          ∧ rix.data = cix.data := by
  obtain ⟨hlen, hidx⟩ := exceptMap_ok h
  refine ⟨hlen, ?_⟩
  intro j cix hj
  obtain ⟨rix, hr, hc⟩ := hidx j cix hj
  obtain ⟨_, hacc, hdata⟩ := convertInstr_ok hc
  exact ⟨rix, hr, by rw [(exceptMap_ok hacc).1], hdata⟩

/-! ### Claims about transaction decompilation -/

/-- Claim C2, amended: Decompilation never yields a partial or truncated
result: a successful extraction resolves every compiled instruction in
place, with its full account list and data.  A lookup table missing from
the resolver's response and an out-of-range lookup-table index each abort
the whole decompilation with a returned descriptive decode error.  An
instruction program or account index outside the assembled account-key
list also aborts the whole decompilation, but by a slice-indexing panic
(`full_keys[idx]`), not a returned decode error. -/
theorem extract_instructions_abort_or_complete :
    (∀ (vm : VersionedMessage)
        (alt : Option (List AddressLookupTableAccount))
        (instrs : List Instruction)
        (tbls : List AddressLookupTableAccount),
      extractInstructionsFromTx vm alt = .ok (instrs, tbls) →
      instrs.length = vm.instructions.length
      ∧ ∀ (j : ℕ) (cix : CompiledInstruction),
          vm.instructions[j]? = some cix →
          ∃ rix, instrs[j]? = some rix
            ∧ rix.accounts.length = cix.accounts.length
            ∧ rix.data = cix.data)
    ∧ (∀ (msg : V0Message) (tables : List AddressLookupTableAccount)
        (lookup : MessageAddressTableLookup),
      lookup ∈ msg.addressTableLookups →
      (∀ t ∈ tables, t.key ≠ lookup.accountKey) →
      ∃ e, extractInstructionsFromTx (.v0 msg) (some tables) = .error e
        ∧ e.isReturnedError = true)
    ∧ (∀ (msg : V0Message) (tables : List AddressLookupTableAccount)
        (lookup : MessageAddressTableLookup)
        (table : AddressLookupTableAccount) (idx : ℕ),
      lookup ∈ msg.addressTableLookups →
      tables.find? (fun t => t.key = lookup.accountKey) = some table →
      (idx ∈ lookup.writableIndexes ∨ idx ∈ lookup.readonlyIndexes) →
      table.addresses.length ≤ idx →
      ∃ e, extractInstructionsFromTx (.v0 msg) (some tables) = .error e
        ∧ e.isReturnedError = true)
    ∧ (∀ (msg : V0Message) (tables : List AddressLookupTableAccount)
        (w r : List Pubkey) (j : ℕ) (cix : CompiledInstruction),
      resolveLookups tables msg.addressTableLookups = .ok (w, r) →
      msg.addressTableLookups ≠ [] →
      msg.instructions[j]? = some cix →
      ((msg.accountKeys ++ w ++ r).length ≤ cix.programIdIndex
        ∨ ∃ idx, idx ∈ cix.accounts
            ∧ (msg.accountKeys ++ w ++ r).length ≤ idx) →
      ∃ i, extractInstructionsFromTx (.v0 msg) (some tables)
        = .error (.panicIndexOutOfBounds i)) := by
  refine ⟨?_, ?_, ?_, ?_⟩
  · intro vm alt instrs tbls hok
    cases vm with
    | legacy m =>
        have h1 : extractLegacy m = .ok (instrs, tbls) := hok
        exact exceptMap_convert_complete (extractLegacy_ok h1)
    | v0 m =>
        have h1 : extractV0 m alt = .ok (instrs, tbls) := hok
        by_cases hemp : m.addressTableLookups.isEmpty
        · rw [extractV0.eq_def, if_pos hemp] at h1
          exact exceptMap_convert_complete (extractV0NoLookups_ok h1)
        · rw [extractV0.eq_def, if_neg hemp] at h1
          cases alt with
          | none => cases h1
          | some tables =>
              have h2 : extractV0WithLookups m tables
                  = .ok (instrs, tbls) := h1
              obtain ⟨w, r, _, hm, _⟩ := extractV0WithLookups_ok h2
              exact exceptMap_convert_complete hm
  · intro msg tables lookup hm hnot
    have hnone : tables.find? (fun t => t.key = lookup.accountKey)
        = none :=
      List.find?_eq_none.mpr (fun t ht => by simp [hnot t ht])
    obtain ⟨e, he⟩ := resolveLookups_error_of_missing hm hnone
    have hne : msg.addressTableLookups ≠ [] := by
      intro h0
      rw [h0] at hm
      cases hm
    refine ⟨e, ?_, resolveLookups_error_returned he⟩
    show extractV0 msg (some tables) = .error e
    rw [extractV0_lookups_branch hne]
    unfold extractV0WithLookups
    simp only [he]
  · intro msg tables lookup table idx hm hf hidx hlen
    obtain ⟨e, he⟩ := resolveLookups_error_of_oob hm hf hidx hlen
    have hne : msg.addressTableLookups ≠ [] := by
      intro h0
      rw [h0] at hm
      cases hm
    refine ⟨e, ?_, resolveLookups_error_returned he⟩
    show extractV0 msg (some tables) = .error e
    rw [extractV0_lookups_branch hne]
    unfold extractV0WithLookups
    simp only [he]
  · intro msg tables w r j cix hres hne hj hoob
    have hcix : cix ∈ msg.instructions := List.getElem?_mem hj
    obtain ⟨e0, he0⟩ := @convertInstr_error_of_oob
      (v0AccountMeta msg.header msg.accountKeys.length w.length
        (msg.accountKeys ++ w ++ r))
      (msg.accountKeys ++ w ++ r) cix
      (fun i hi => ⟨.panicIndexOutOfBounds i, v0AccountMeta_error_of_oob hi⟩)
      hoob
    obtain ⟨e2, he2⟩ := exceptMap_error_of_mem hcix he0
    obtain ⟨x, hxmem, hx⟩ := exceptMap_error he2
    obtain ⟨i, rfl⟩ := convertInstr_error_panic
      (fun a ea hea => ⟨a, (v0AccountMeta_error hea).1⟩) hx
    refine ⟨i, ?_⟩
    show extractV0 msg (some tables) = .error (.panicIndexOutOfBounds i)
    rw [extractV0_lookups_branch hne]
    unfold extractV0WithLookups
    simp only [hres]
    simp only [he2]

/-- Witness for C2 (amended): a message whose only lookup names table 7
against an empty resolver response aborts with a returned decode error. -/
theorem extract_instructions_abort_or_complete_witness :
    ∃ e, extractInstructionsFromTx (.v0 msgEx) (some []) = .error e
      ∧ e.isReturnedError = true :=
  extract_instructions_abort_or_complete.2.1 msgEx [] lookupEx (by decide)
    (fun t ht => absurd ht (by simp))

/-- Claim C2, counterexample: An instruction account index past the
assembled key list does not abort with a returned decode error: on
`msgBadIndex` (account index 5 against 4 assembled keys) decompilation
aborts by the slice-indexing panic, which the source never returns as an
`Err`. -/
theorem extract_oob_instruction_index_panics :
    extractInstructionsFromTx (.v0 msgBadIndex) (some [tableEx])
      = .error (.panicIndexOutOfBounds 5)
    ∧ (DecompileError.panicIndexOutOfBounds 5).isReturnedError = false :=
  ⟨rfl, rfl⟩

/-- Claim C3: For every V0 message (with a valid header: readonly counts not
exceeding their totals) that decompiles successfully, instruction account
index `i` resolves to the key at position `i` of
static ++ resolved-writable ++ resolved-readonly (the spec's lists, in
lookup order), with `is_signer = i < sig` and `is_writable` given by the
header formulas for static indices and by the writable-dynamic span for
dynamic indices. -/
theorem v0_account_classification (msg : V0Message)
    (tables : List AddressLookupTableAccount)
    (instrs : List Instruction) (tbls : List AddressLookupTableAccount)
    (hsig : msg.header.numReadonlySignedAccounts
      ≤ msg.header.numRequiredSignatures)
    (hunsig : msg.header.numReadonlyUnsignedAccounts
      ≤ msg.accountKeys.length)
    (hok : extractInstructionsFromTx (.v0 msg) (some tables)
      = .ok (instrs, tbls)) :
    ∀ (j : ℕ) (cix : CompiledInstruction),
      msg.instructions[j]? = some cix →
    ∀ (k idx : ℕ), cix.accounts[k]? = some idx →
    ∃ rix meta, instrs[j]? = some rix ∧ rix.accounts[k]? = some meta
      ∧ meta.pubkey = (msg.accountKeys
          ++ specDynamicWritable tables msg.addressTableLookups
          ++ specDynamicReadonly tables msg.addressTableLookups).getD idx 0
      ∧ meta.isSigner = decide (idx < msg.header.numRequiredSignatures)
      ∧ meta.isWritable =
          (if idx < msg.accountKeys.length then
            (if idx < msg.header.numRequiredSignatures then
              decide (idx < msg.header.numRequiredSignatures
                - msg.header.numReadonlySignedAccounts)
            else
              decide (idx < msg.accountKeys.length
                - msg.header.numReadonlyUnsignedAccounts))
          else
            decide (idx < msg.accountKeys.length
              + (specDynamicWritable tables
                  msg.addressTableLookups).length)) := by
  intro j cix hj k idx hk
  have h1 : extractV0 msg (some tables) = .ok (instrs, tbls) := hok
  by_cases hemp : msg.addressTableLookups.isEmpty
  · -- no-lookup branch: both dynamic lists are empty
    have hnil : msg.addressTableLookups = [] := List.isEmpty_iff.mp hemp
    rw [extractV0, if_pos hemp] at h1
    have hm := extractV0NoLookups_ok h1
    obtain ⟨_, hidx⟩ := exceptMap_ok hm
    obtain ⟨rix, hr, hc⟩ := hidx j cix hj
    obtain ⟨_, hacc, _⟩ := convertInstr_ok hc
    obtain ⟨_, hidx2⟩ := exceptMap_ok hacc
    obtain ⟨meta, hmeta, hmok⟩ := hidx2 k idx hk
    obtain ⟨hb, hpk, hsgn, hwr⟩ := v0AccountMetaNoLookups_ok hmok
    rw [hnil]
    refine ⟨rix, meta, hr, hmeta, ?_, hsgn, ?_⟩
    · rw [hpk]
      show _ = (msg.accountKeys
          ++ specDynamicWritable tables []
          ++ specDynamicReadonly tables []).getD idx 0
      rw [show specDynamicWritable tables [] = [] from rfl,
        show specDynamicReadonly tables [] = [] from rfl,
        List.append_nil, List.append_nil]
    · rw [hwr, if_pos hb]
  · -- with-lookups branch
    rw [extractV0, if_neg hemp] at h1
    have h2 : extractV0WithLookups msg tables = .ok (instrs, tbls) := h1
    obtain ⟨w, r, hres, hm, _⟩ := extractV0WithLookups_ok h2
    obtain ⟨hw, hrr⟩ := resolveLookups_ok hres
    obtain ⟨_, hidx⟩ := exceptMap_ok hm
    obtain ⟨rix, hr, hc⟩ := hidx j cix hj
    obtain ⟨_, hacc, _⟩ := convertInstr_ok hc
    obtain ⟨_, hidx2⟩ := exceptMap_ok hacc
    obtain ⟨meta, hmeta, hmok⟩ := hidx2 k idx hk
    obtain ⟨hb, hpk, hsgn, hwrit⟩ := v0AccountMeta_ok hmok
    refine ⟨rix, meta, hr, hmeta, ?_, hsgn, ?_⟩
    · rw [hpk, hw, hrr]
    · rw [hwrit, hw]

/-- Witness for C3: on the concrete message `msgEx`, instruction account
position 2 (index 2, the dynamic writable entry) resolves to key 30,
non-signer, writable. -/
theorem v0_account_classification_witness :
    ∃ rix meta, instrsEx[0]? = some rix ∧ rix.accounts[2]? = some meta
      ∧ meta.pubkey = (msgEx.accountKeys
          ++ specDynamicWritable [tableEx] msgEx.addressTableLookups
          ++ specDynamicReadonly [tableEx] msgEx.addressTableLookups).getD 2 0
      ∧ meta.isSigner = decide (2 < msgEx.header.numRequiredSignatures)
      ∧ meta.isWritable =
          (if 2 < msgEx.accountKeys.length then
            (if 2 < msgEx.header.numRequiredSignatures then
              decide (2 < msgEx.header.numRequiredSignatures
                - msgEx.header.numReadonlySignedAccounts)
            else
              decide (2 < msgEx.accountKeys.length
                - msgEx.header.numReadonlyUnsignedAccounts))
          else
            decide (2 < msgEx.accountKeys.length
              + (specDynamicWritable [tableEx]
                  msgEx.addressTableLookups).length)) :=
  v0_account_classification msgEx [tableEx] instrsEx [tableEx]
    (by decide) (by decide) rfl 0 ⟨0, [0, 1, 2, 3], [9]⟩ (by decide) 2 2
    (by decide)

end ArbEngine
